import Mathlib

/-!
Verification development for the inarbit arbitrage engine (Rust, crate
`engine`).  The Rust sources under `src/engine/src/` are shallowly embedded:

* `f64` market data and configuration values are modelled as exact rationals
  (`ℚ`); every finite `f64` is such a rational.  Where the code computes
  transcendental functions (`ln`, `exp`, `sqrt`) the values live in `ℝ`.
  Signal fields are `ℝ` because the graph and pair strategies emit
  transcendental values.
* Rust `HashMap`s keyed by strings are modelled as total functions into
  `Option`, updated with `Function.update`; the graph strategy edge map,
  which the code also iterates, is modelled as an association list with
  update-or-append insertion (a deterministic stand-in for hash iteration
  order; the theorems about it quantify over arbitrary association lists).
* Wall-clock reads (`chrono::Utc::now()`) are passed in as an explicit
  `now` argument; environment variables as a function
  `String → Option String`; network responses as explicit boolean inputs.
-/

namespace Inarbit

/-- Exchange identifiers (`exchange.rs`, `enum ExchangeId`). -/
inductive ExchangeId where
  | Binance
  | Okx
  | Bybit
  | Gate
  | Bitget
  | Mexc
deriving DecidableEq, Repr

/-- Lowercased debug rendering, `format!("{:?}", id).to_lowercase()`. -/
def ExchangeId.lower : ExchangeId → String
  | .Binance => "binance"
  | .Okx => "okx"
  | .Bybit => "bybit"
  | .Gate => "gate"
  | .Bitget => "bitget"
  | .Mexc => "mexc"

/-- Normalized market-data event (`exchange.rs`, `struct Ticker`). -/
structure Ticker where
  exchange : ExchangeId
  symbol : String
  bid : ℚ
  ask : ℚ
  last : ℚ
  volume : ℚ
  timestamp : ℤ
deriving DecidableEq

/-- Strategy variants (`strategy.rs`, `enum StrategyType`). -/
inductive StrategyType where
  | Triangular
  | Graph
  | FundingRate
  | Grid
  | Pair
deriving DecidableEq, Repr

/-- Lowercased debug rendering, `format!("{:?}", t).to_lowercase()`. -/
def StrategyType.lower : StrategyType → String
  | .Triangular => "triangular"
  | .Graph => "graph"
  | .FundingRate => "fundingrate"
  | .Grid => "grid"
  | .Pair => "pair"

/-- Strategy output (`strategy.rs`, `struct Signal`).  The UUID strategy id
is modelled as a string. -/
structure Signal where
  strategy_type : StrategyType
  strategy_id : String
  exchange : ExchangeId
  path : String
  expected_profit : ℝ
  profit_rate : ℝ
  confidence : ℝ
  timestamp : ℤ

/-- Scalar part of a strategy configuration row (`strategy.rs`,
`struct StrategyConfig`).  The opaque JSON `config` blob is modelled by
passing the recognized keys to each constructor as `Option` parameters. -/
structure StrategyConfig where
  id : String
  strategy_type : StrategyType
  name : String
  is_enabled : Bool
  priority : ℤ
  capital_percent : ℚ
  per_trade_limit : ℚ
deriving DecidableEq

/-! ## Executor (`executor.rs`) -/

/-- Order side (`executor.rs`, `enum OrderSide`). -/
inductive OrderSide where
  | Buy
  | Sell
deriving DecidableEq, Repr

/-- Order status (`executor.rs`, `enum OrderStatus`). -/
inductive OrderStatus where
  | Pending
  | PartialFilled
  | Filled
  | Cancelled
  | Failed
deriving DecidableEq, Repr

/-- Order response (`executor.rs`, `struct OrderResponse`). -/
structure OrderResponse where
  order_id : String
  exchange : ExchangeId
  symbol : String
  side : OrderSide
  status : OrderStatus
  filled_amount : ℝ
  avg_price : ℝ
  fee : ℝ
  latency_ms : ℕ

/-- Execution result (`executor.rs`, `struct ExecutionResult`). -/
structure ExecutionResult where
  signal : Signal
  orders : List OrderResponse
  total_fee : ℝ
  net_profit : ℝ
  success : Bool

/-- ASCII whitespace, the subset of `char::is_whitespace` the embedded
strings can contain. -/
def isAsciiWS (c : Char) : Bool :=
  c = ' ' || c = '\t' || c = '\n' || c = '\r'

/-- Trims whitespace from both ends, `str::trim` (restricted to ASCII
whitespace; no embedded string contains other whitespace). -/
def trimWS (cs : List Char) : List Char :=
  ((cs.dropWhile isAsciiWS).reverse.dropWhile isAsciiWS).reverse

/-- Trims matching commas from both ends, `str::trim_matches(',')`. -/
def trimComma (cs : List Char) : List Char :=
  ((cs.dropWhile (fun c => c = ',')).reverse.dropWhile
    (fun c => c = ',')).reverse

/-- Splits a character list at every non-overlapping occurrence of the
two-character delimiter `"->"`, scanning left to right: the semantics of
Rust `str::split("->")`. -/
def splitArrow : List Char → List (List Char)
  | [] => [[]]
  | '-' :: '>' :: rest => [] :: splitArrow rest
  | c :: rest =>
    match splitArrow rest with
    | [] => [[c]]
    | h :: t => (c :: h) :: t

/-- Splits a signal path into symbols (`executor.rs`,
`fn parse_symbols_from_path`): split on the two-character ASCII delimiter
`"->"`, trim whitespace and commas, drop empty parts, and fall back to the
whole path when nothing survives. -/
def parse_symbols_from_path (path : String) : List String :=
  if path = "" then
    []
  else
    let out := ((splitArrow path.toList).map
      (fun part => String.mk (trimComma (trimWS part)))).filter
      (fun s => s ≠ "")
    if out = [] then [path] else out

/-- Risk score (`executor.rs`, `fn calc_risk_score`):
`min(max(1 - profit_rate, 0.01) * 1000, 1000)`. -/
noncomputable def calc_risk_score (profit_rate : ℝ) : ℝ :=
  let base := max (1 - profit_rate) 0.01
  min (base * 1000) 1000

/-- Decision payload sent to the OMS (`executor.rs`,
`OrderExecutor::build_decision_payload`), modelled as a record instead of a
`serde_json::Value`. -/
structure DecisionPayload where
  strategyType : String
  exchange : String
  symbol : String
  direction : String
  expectedProfit : ℝ
  expectedProfitRate : ℝ
  estimatedExposure : ℝ
  riskScore : ℝ
  confidence : ℝ
  timestamp : ℤ
  rawPath : String
  rawSymbols : List String

/-- OMS client handle (`executor.rs`, `struct OmsClient`); only its
presence matters for the embedded control flow. -/
structure OmsClient where
  base_url : String
  token : String
deriving DecidableEq

/-- Order executor (`executor.rs`, `struct OrderExecutor`).  The exchange
handle map and redis client are reduced to the facts the control flow
inspects. -/
structure OrderExecutor where
  simulation_mode : Bool
  has_redis : Bool
  oms_client : Option OmsClient
  user_id : Option String

/-- Environment-variable store, `std::env::var`. -/
def Env : Type := String → Option String

/-- Live-trading gate (`executor.rs`, `OrderExecutor::live_enabled`):
`ENGINE_EXECUTE_SIGNALS` must match `"1" | "true" | "True"` and
`ENGINE_LIVE_CONFIRM` must equal `"CONFIRM_LIVE"`. -/
def OrderExecutor.live_enabled (env : Env) : Bool :=
  let execute_signals :=
    match env "ENGINE_EXECUTE_SIGNALS" with
    | some v => v == "1" || v == "true" || v == "True"
    | none => false
  let live_confirm := (env "ENGINE_LIVE_CONFIRM").getD ""
  execute_signals && (live_confirm == "CONFIRM_LIVE")

/-- Builds the decision payload (`executor.rs`,
`OrderExecutor::build_decision_payload`). -/
noncomputable def OrderExecutor.build_decision_payload (signal : Signal) :
    DecisionPayload :=
  let symbols := parse_symbols_from_path signal.path
  let symbol := symbols.head?.getD ""
  { strategyType := signal.strategy_type.lower
    exchange := signal.exchange.lower
    symbol := symbol
    direction := "neutral"
    expectedProfit := signal.expected_profit
    expectedProfitRate := signal.profit_rate
    estimatedExposure := 0
    riskScore := calc_risk_score signal.profit_rate
    confidence := signal.confidence
    timestamp := signal.timestamp
    rawPath := signal.path
    rawSymbols := symbols }

/-- Simulated execution (`executor.rs`,
`OrderExecutor::simulate_execution`); the random UUID order id is modelled
as an opaque constant. -/
noncomputable def OrderExecutor.simulate_execution (signal : Signal) :
    ExecutionResult :=
  let simulated_order : OrderResponse :=
    { order_id := "uuid"
      exchange := signal.exchange
      symbol := "SIMULATED"
      side := .Buy
      status := .Filled
      filled_amount := 100
      avg_price := 1
      fee := 0.1
      latency_ms := 50 }
  { signal := signal
    orders := [simulated_order]
    total_fee := 0.1
    net_profit := signal.expected_profit - 0.1
    success := true }

/-- Externally visible side effects performed by
`OrderExecutor::execute`. -/
inductive Effect where
  | publishSignal (channel : String) (payload : DecisionPayload)
  | publishDecision (payload : DecisionPayload)
  | omsCall (idempotency_key : String) (trading_mode : String)
      (confirm_live : Bool)

/-- Executes a signal (`executor.rs`, `OrderExecutor::execute`).  Returns
the side effects performed, in order, together with the result; `oms_ok`
stands for the `success` field of the remote OMS response. -/
noncomputable def OrderExecutor.execute (ex : OrderExecutor) (env : Env)
    (oms_ok : Bool) (signal : Signal) :
    List Effect × Except String ExecutionResult :=
  if ex.simulation_mode then
    ([], .ok (OrderExecutor.simulate_execution signal))
  else if ¬ OrderExecutor.live_enabled env then
    ([], .error "live execution blocked: require ENGINE_EXECUTE_SIGNALS=1 and ENGINE_LIVE_CONFIRM=CONFIRM_LIVE")
  else
    let payload := OrderExecutor.build_decision_payload signal
    let signalEffects :=
      if ex.has_redis ∧ ex.user_id.isSome then
        [Effect.publishSignal
          ("signal:" ++ ex.user_id.getD "" ++ ":" ++ signal.strategy_type.lower)
          payload]
      else []
    let decisionEffects :=
      if ex.has_redis then [Effect.publishDecision payload] else []
    match ex.oms_client with
    | some _ =>
      let idempotency_key :=
        "engine:" ++ signal.strategy_id ++ ":" ++ toString signal.timestamp
      (signalEffects ++ decisionEffects ++
        [Effect.omsCall idempotency_key
          (if ex.simulation_mode then "paper" else "live")
          (!ex.simulation_mode)],
       if oms_ok then
         .ok { signal := signal, orders := [], total_fee := 0,
               net_profit := 0, success := true }
       else
         .error "OMS execute_latest failed")
    | none =>
      (signalEffects ++ decisionEffects,
       .error "OMS client not configured (ENGINE_OMS_BASE/ENGINE_OMS_TOKEN)")

/-! ## Exchange connector (`exchange.rs`) -/

/-- Minimal JSON value universe for the subscribe frames.  Serialization
with `serde_json` followed by reparsing is the identity on this
abstract-syntax view, so round-trip claims are stated on it directly. -/
inductive Json where
  | str (s : String)
  | num (n : ℤ)
  | arr (elems : List Json)
  | obj (fields : List (String × Json))

/-- Looks a key up in a JSON object; `none` on other JSON shapes. -/
def Json.lookupKey : Json → String → Option Json
  | .obj fields, key => (fields.find? (fun p => p.1 == key)).map (fun p => p.2)
  | _, _ => none

/-- Lowercases an ASCII letter, the `char`-level content of
`str::to_lowercase` on the ASCII venue symbols. -/
def charLowerAscii (c : Char) : Char :=
  if 'A' ≤ c ∧ c ≤ 'Z' then Char.ofNat (c.toNat + 32) else c

/-- Lowercases a string, `str::to_lowercase` (ASCII model). -/
def lowerAscii (s : String) : String :=
  String.mk (s.toList.map charLowerAscii)

/-- Removes every slash, `str::replace("/", "")`. -/
def removeSlash (s : String) : String :=
  String.mk (s.toList.filter (fun c => c ≠ '/'))

/-- Replaces every slash by a dash, `str::replace("/", "-")`. -/
def slashToDash (s : String) : String :=
  String.mk (s.toList.map (fun c => if c = '/' then '-' else c))

/-- Venue-specific subscribe frame (`exchange.rs`,
`ExchangeConnection::build_subscribe_message`), as its JSON value. -/
def build_subscribe_message (id : ExchangeId) (symbols : List String) : Json :=
  match id with
  | .Binance =>
    let streams := symbols.map (fun s => removeSlash (lowerAscii s) ++ "@ticker")
    .obj [("method", .str "SUBSCRIBE"),
          ("params", .arr (streams.map .str)),
          ("id", .num 1)]
  | .Okx =>
    .obj [("op", .str "subscribe"),
          ("args", .arr (symbols.map (fun s =>
            .obj [("channel", .str "tickers"),
                  ("instId", .str (slashToDash s))])))]
  | .Bybit =>
    .obj [("op", .str "subscribe"),
          ("args", .arr (symbols.map (fun s =>
            .str ("tickers." ++ removeSlash s))))]
  | _ =>
    .obj [("type", .str "subscribe"),
          ("channels", .arr (symbols.map .str))]

/-! ## Triangular arbitrage strategy (`strategy.rs`, `TriangularStrategy`) -/

/-- Triangular strategy state (`strategy.rs`, `struct TriangularStrategy`).
The price cache `symbol -> (bid, ask, timestamp)` is a total function into
`Option`. -/
structure TriangularStrategy where
  config : StrategyConfig
  prices : String → Option (ℚ × ℚ × ℤ)
  triangles : List (String × String × String)
  min_profit_rate : ℚ
  fee_rate : ℚ

/-- Hardcoded fallback triangles (`TriangularStrategy::new`). -/
def fallback_triangles : List (String × String × String) :=
  [("BTCUSDT", "ETHBTC", "ETHUSDT"),
   ("BTCUSDT", "BNBBTC", "BNBUSDT"),
   ("ETHUSDT", "BNBETH", "BNBUSDT"),
   ("BTCUSDT", "SOLBTC", "SOLUSDT"),
   ("BTCUSDT", "XRPBTC", "XRPUSDT")]

/-- Constructor (`TriangularStrategy::new`).  The `Option` parameters model
the JSON lookups `config.config.get("min_profit_rate")`,
`.get("fee_rate")` and `.get("triangles")`; a present-but-empty triangle
list falls back, mirroring `.filter(|out| !out.is_empty())`. -/
def TriangularStrategy.new (config : StrategyConfig)
    (cfg_min_profit_rate cfg_fee_rate : Option ℚ)
    (cfg_triangles : Option (List (String × String × String))) :
    TriangularStrategy :=
  { config := config
    prices := fun _ => none
    triangles :=
      match cfg_triangles with
      | some ts => if ts = [] then fallback_triangles else ts
      | none => fallback_triangles
    min_profit_rate := cfg_min_profit_rate.getD 0.001
    fee_rate := cfg_fee_rate.getD 0.001 }

/-- Profit computation (`TriangularStrategy::calculate_profit`): 1 unit of
quote through ask1, ask2 and bid3 with a fee per leg; returns
`(profit_rate, final_amount)`. -/
def TriangularStrategy.calculate_profit (s : TriangularStrategy)
    (pair1 pair2 pair3 : String) : Option (ℚ × ℚ) := do
  let (_, ask1, _) ← s.prices pair1
  let (_, ask2, _) ← s.prices pair2
  let (bid3, _, _) ← s.prices pair3
  let step1 := 1 / ask1 * (1 - s.fee_rate)
  let step2 := step1 / ask2 * (1 - s.fee_rate)
  let final_amount := step2 * bid3 * (1 - s.fee_rate)
  let profit_rate := final_amount - 1
  pure (profit_rate, final_amount)

/-- Ticker handler (`TriangularStrategy::on_ticker`): cache the price, then
return the signal of the first triangle whose profit rate beats the
threshold. -/
noncomputable def TriangularStrategy.on_ticker (s : TriangularStrategy)
    (ticker : Ticker) (now : ℤ) : TriangularStrategy × Option Signal :=
  let prices1 := Function.update s.prices ticker.symbol
    (some (ticker.bid, ticker.ask, ticker.timestamp))
  let s1 := { s with prices := prices1 }
  let sig := s1.triangles.findSome? (fun t =>
    match s1.calculate_profit t.1 t.2.1 t.2.2 with
    | some (profit_rate, _) =>
      if profit_rate > s1.min_profit_rate then
        some { strategy_type := .Triangular
               strategy_id := s1.config.id
               exchange := ticker.exchange
               path := t.1 ++ " → " ++ t.2.1 ++ " → " ++ t.2.2
               expected_profit := (profit_rate : ℝ) * (s1.config.per_trade_limit : ℝ)
               profit_rate := (profit_rate : ℝ)
               confidence := min ((profit_rate : ℝ) / (s1.min_profit_rate : ℝ)) 1
               timestamp := now }
      else none
    | none => none)
  (s1, sig)

/-! ## Funding-rate strategy (`strategy.rs`, `FundingRateStrategy`) -/

/-- Funding-rate strategy state (`struct FundingRateStrategy`). -/
structure FundingRateStrategy where
  config : StrategyConfig
  funding_rates : String → Option (ℚ × ℤ)
  spot_prices : String → Option ℚ
  perp_prices : String → Option ℚ
  min_apr : ℚ
  holding_days : ℚ

/-- Constructor (`FundingRateStrategy::new`); `Option` parameters model the
JSON lookups for `min_apr` and `holding_days`. -/
def FundingRateStrategy.new (config : StrategyConfig)
    (cfg_min_apr cfg_holding_days : Option ℚ) : FundingRateStrategy :=
  { config := config
    funding_rates := fun _ => none
    spot_prices := fun _ => none
    perp_prices := fun _ => none
    min_apr := cfg_min_apr.getD 0.10
    holding_days := cfg_holding_days.getD 7 }

/-- Out-of-band funding-rate feed
(`FundingRateStrategy::update_funding_rate`). -/
def FundingRateStrategy.update_funding_rate (s : FundingRateStrategy)
    (symbol : String) (rate : ℚ) (next_time : ℤ) : FundingRateStrategy :=
  { s with funding_rates :=
    Function.update s.funding_rates symbol (some (rate, next_time)) }

/-- Annualized carry estimate (`FundingRateStrategy::calculate_apr`):
`|rate| * 3 * 365`. -/
def FundingRateStrategy.calculate_apr (s : FundingRateStrategy)
    (symbol : String) : Option ℚ :=
  (s.funding_rates symbol).map (fun r => |r.1| * 3.0 * 365.0)

/-- Ticker handler (`FundingRateStrategy::on_ticker`). -/
noncomputable def FundingRateStrategy.on_ticker (s : FundingRateStrategy)
    (ticker : Ticker) (now : ℤ) : FundingRateStrategy × Option Signal :=
  let spot1 := Function.update s.spot_prices ticker.symbol (some ticker.last)
  let s1 := { s with spot_prices := spot1 }
  let sig :=
    match s1.calculate_apr ticker.symbol with
    | some apr =>
      if apr > s1.min_apr then
        match s1.funding_rates ticker.symbol with
        | some (funding_rate, _) =>
          let direction :=
            if funding_rate > 0 then "做空永续+买入现货" else "做多永续+卖出现货"
          some { strategy_type := .FundingRate
                 strategy_id := s1.config.id
                 exchange := ticker.exchange
                 path := ticker.symbol ++ " - " ++ direction
                 expected_profit := (apr : ℝ) * (s1.holding_days : ℝ) / 365
                   * (s1.config.per_trade_limit : ℝ)
                 profit_rate := (apr : ℝ)
                 confidence := min ((apr : ℝ) / (s1.min_apr : ℝ)) 1
                 timestamp := now }
        | none => none
      else none
    | none => none
  (s1, sig)

/-! ## Grid strategy (`strategy.rs`, `GridStrategy`) -/

/-- Per-symbol grid parameters (`strategy.rs`, `struct GridConfig`). -/
structure GridConfig where
  upper_price : ℚ
  lower_price : ℚ
  grid_count : ℕ
  grid_size : ℚ
  last_trigger : ℚ
deriving DecidableEq

/-- One entry of the `grids` JSON configuration array. -/
structure GridSpec where
  symbol : String
  upper_price : ℚ
  lower_price : ℚ
  grid_count : ℕ
deriving DecidableEq

/-- Grid strategy state (`struct GridStrategy`). -/
structure GridStrategy where
  config : StrategyConfig
  grids : String → Option GridConfig
  positions : String → Option ℚ

/-- Constructor (`GridStrategy::new`): `grid_size = (upper - lower)/count`,
initial `last_trigger = (upper + lower)/2`.  Later duplicate symbols win,
mirroring `HashMap::insert`. -/
def GridStrategy.new (config : StrategyConfig) (cfg_grids : List GridSpec) :
    GridStrategy :=
  { config := config
    grids := fun sym =>
      (cfg_grids.reverse.find? (fun g => g.symbol == sym)).map (fun g =>
        { upper_price := g.upper_price
          lower_price := g.lower_price
          grid_count := g.grid_count
          grid_size := (g.upper_price - g.lower_price) / (g.grid_count : ℚ)
          last_trigger := (g.upper_price + g.lower_price) / 2 })
    positions := fun _ => none }

/-- Fixed-two-decimal rendering of a nonnegative rational, modelling the
Rust `{:.2}` float format used in the grid signal path. -/
def fmt2 (q : ℚ) : String :=
  let c : ℤ := ⌊q * 100 + 1 / 2⌋
  let ip := c / 100
  let fp := (c % 100).toNat
  toString ip ++ "." ++ (if fp < 10 then "0" else "") ++ toString fp

/-- Ticker handler (`GridStrategy::on_ticker`): inside the band, emit when
the grid index of `price` differs from the grid index of `last_trigger` by
at least one, then move `last_trigger` to `price`.  The `f64` floors are
modelled as integer floors. -/
noncomputable def GridStrategy.on_ticker (s : GridStrategy) (ticker : Ticker)
    (now : ℤ) : GridStrategy × Option Signal :=
  match s.grids ticker.symbol with
  | none => (s, none)
  | some grid =>
    let price := ticker.last
    if price < grid.lower_price ∨ price > grid.upper_price then (s, none)
    else
      let current_grid : ℤ := ⌊(price - grid.lower_price) / grid.grid_size⌋
      let last_grid : ℤ := ⌊(grid.last_trigger - grid.lower_price) / grid.grid_size⌋
      if 1 ≤ |current_grid - last_grid| then
        let direction := if price < grid.last_trigger then "买入" else "卖出"
        let profit_rate := grid.grid_size / price
        let grids1 := Function.update s.grids ticker.symbol
          (some { grid with last_trigger := price })
        let s1 := { s with grids := grids1 }
        (s1, some { strategy_type := .Grid
                    strategy_id := s.config.id
                    exchange := ticker.exchange
                    path := ticker.symbol ++ " - " ++ direction ++ " @ " ++ fmt2 price
                    expected_profit := (profit_rate : ℝ) * (s.config.per_trade_limit : ℝ)
                    profit_rate := (profit_rate : ℝ)
                    confidence := ((0.8 : ℚ) : ℝ)
                    timestamp := now })
      else (s, none)

/-! ## Pair strategy (`strategy.rs`, `PairStrategy`) -/

/-- Pair strategy state (`struct PairStrategy`). -/
structure PairStrategy where
  config : StrategyConfig
  pairs : List (String × String)
  price_history : String → List ℚ
  window_size : ℕ
  zscore_threshold : ℚ

/-- Constructor (`PairStrategy::new`) with its fixed pair list; `Option`
parameters model the JSON lookups for `window_size` and
`zscore_threshold`. -/
def PairStrategy.new (config : StrategyConfig)
    (cfg_window_size : Option ℕ) (cfg_zscore_threshold : Option ℚ) :
    PairStrategy :=
  { config := config
    pairs := [("BTCUSDT", "ETHUSDT"),
              ("SOLUSDT", "AVAXUSDT"),
              ("BNBUSDT", "MATICUSDT")]
    price_history := fun _ => []
    window_size := cfg_window_size.getD 100
    zscore_threshold := cfg_zscore_threshold.getD 2.0 }

/-- Z-score of the price ratio (`PairStrategy::calculate_zscore`).  The
ratio statistics are exact rationals; the standard deviation goes through
`Real.sqrt`. -/
noncomputable def PairStrategy.calculate_zscore (s : PairStrategy)
    (sym1 sym2 : String) : Option ℝ :=
  let hist1 := s.price_history sym1
  let hist2 := s.price_history sym2
  if hist1.length < s.window_size ∨ hist2.length < s.window_size then none
  else
    let rs : List ℚ := (hist1.zip hist2).map (fun p => p.1 / p.2)
    let mean : ℚ := rs.sum / (rs.length : ℚ)
    let variance : ℚ := (rs.map (fun r => (r - mean) ^ 2)).sum / (rs.length : ℚ)
    let std_dev : ℝ := Real.sqrt (variance : ℝ)
    if std_dev = 0 then none
    else
      match hist1.getLast?, hist2.getLast? with
      | some a, some b =>
        some ((((a / b : ℚ) : ℝ) - (mean : ℝ)) / std_dev)
      | _, _ => none

/-- Ticker handler (`PairStrategy::on_ticker`): push the price, evict the
oldest entry past `window_size`, then scan the pair list. -/
noncomputable def PairStrategy.on_ticker (s : PairStrategy) (ticker : Ticker)
    (now : ℤ) : PairStrategy × Option Signal :=
  let history1 := s.price_history ticker.symbol ++ [ticker.last]
  let history2 := if history1.length > s.window_size then history1.drop 1 else history1
  let ph1 := Function.update s.price_history ticker.symbol history2
  let s1 := { s with price_history := ph1 }
  let sig := s1.pairs.findSome? (fun pr =>
    if ticker.symbol = pr.1 ∨ ticker.symbol = pr.2 then
      match s1.calculate_zscore pr.1 pr.2 with
      | some zscore =>
        if |zscore| > (s1.zscore_threshold : ℝ) then
          let direction :=
            if zscore > 0 then "做空 " ++ pr.1 ++ " / 做多 " ++ pr.2
            else "做多 " ++ pr.1 ++ " / 做空 " ++ pr.2
          let profit_rate : ℝ := (|zscore| - (s1.zscore_threshold : ℝ)) * 0.01
          some { strategy_type := .Pair
                 strategy_id := s1.config.id
                 exchange := ticker.exchange
                 path := pr.1 ++ "/" ++ pr.2 ++ " - " ++ direction
                 expected_profit := profit_rate * (s1.config.per_trade_limit : ℝ)
                 profit_rate := profit_rate
                 confidence := min (|zscore| / ((s1.zscore_threshold : ℝ) * 2.0)) 1
                 timestamp := now }
        else none
      | none => none
    else none)
  (s1, sig)

/-! ## Graph strategy and Bellman-Ford (`strategy.rs`, `GraphStrategy`)

The relaxation core is generic over a linear ordered field `α`; the code
runs it on `f64` log-price weights (embedded as `ℝ`), and witnesses run it
on `ℚ`.  Distances live in `WithTop α`, whose top element behaves exactly
like `f64::INFINITY` under the additions and comparisons the code
performs. -/

section BellmanFord

variable {α : Type} [LinearOrderedField α]
variable [DecidableRel ((· < ·) : α → α → Prop)]

/-- Bellman-Ford working state: the `dist` and `parent` maps.  Their key
set in the Rust code is exactly the node list; lookups are guarded by node
membership below, so total functions are a faithful model. -/
structure BFState (α : Type) where
  dist : String → WithTop α
  parent : String → Option String

/-- One relaxation step for one edge (the loop body in
`GraphStrategy::detect_negative_cycle`): skip edges whose endpoints are
not in the distance map, otherwise relax `from -> to`. -/
def relaxEdge (nodes : List String) (st : BFState α)
    (e : (String × String) × α) : BFState α :=
  if e.1.1 ∈ nodes then
    if e.1.2 ∈ nodes then
      if st.dist e.1.1 + (e.2 : WithTop α) < st.dist e.1.2 then
        { dist := Function.update st.dist e.1.2 (st.dist e.1.1 + (e.2 : WithTop α))
          parent := Function.update st.parent e.1.2 (some e.1.1) }
      else st
    else st
  else st

/-- One full pass over the edge list. -/
def relaxPass (nodes : List String) (edges : List ((String × String) × α))
    (st : BFState α) : BFState α :=
  edges.foldl (relaxEdge nodes) st

/-- The `for _ in 0..n` loop: `k` full passes. -/
def relaxLoop (nodes : List String) (edges : List ((String × String) × α)) :
    ℕ → BFState α → BFState α
  | 0, st => st
  | k + 1, st => relaxPass nodes edges (relaxLoop nodes edges k st)

/-- Cycle reconstruction (the `while` loop in
`GraphStrategy::detect_negative_cycle`): walk parents from `from`,
stopping at a repeated node or after the paths grows past `n + 1`
entries.  The loop adds one entry per step, so fuel `n + 2` never runs
out; it only makes the recursion structural. -/
def buildPath (parent : String → Option String) (n : ℕ) :
    ℕ → List String → String → List String
  | 0, path, _ => path
  | fuel + 1, path, current =>
    if current ∈ path then path
    else if n + 1 ≤ path.length then path
    else buildPath parent n fuel (path ++ [current]) ((parent current).getD "")

/-- Negative-cycle detector (`GraphStrategy::detect_negative_cycle`):
initialize `dist[nodes[0]] = 0`, others `+∞`; run `n` relaxation passes;
report the first still-relaxable edge with its reconstructed cycle.  It
returns the witness edge weight `w`; the caller (`on_ticker`) turns it
into the profit rate `exp(-w) - 1` exactly as the Rust function does
before returning. -/
def detect_negative_cycle (nodes : List String)
    (edges : List ((String × String) × α)) : Option (List String × α) :=
  match nodes with
  | [] => none
  | s :: _ =>
    let n := nodes.length
    let init : BFState α :=
      { dist := fun v => if v = s then 0 else ⊤, parent := fun _ => none }
    let final := relaxLoop nodes edges n init
    edges.findSome? (fun e =>
      if e.1.1 ∈ nodes ∧ e.1.2 ∈ nodes then
        if final.dist e.1.1 + (e.2 : WithTop α) < final.dist e.1.2 then
          some ((buildPath final.parent n (n + 2) [e.1.2] e.1.1).reverse, e.2)
        else none
      else none)

end BellmanFord

/-- Update-or-append insertion into an association list, the deterministic
model of `HashMap::insert` for the edge map. -/
def upsert {β : Type} (l : List ((String × String) × β)) (k : String × String)
    (v : β) : List ((String × String) × β) :=
  if l.any (fun p => p.1 = k) then
    l.map (fun p => if p.1 = k then (k, v) else p)
  else l ++ [(k, v)]

/-- Graph strategy state (`struct GraphStrategy`). -/
structure GraphStrategy where
  config : StrategyConfig
  edges : List ((String × String) × ℝ)
  nodes : List String
  min_profit_rate : ℚ
  fee_rate : ℚ

/-- Constructor (`GraphStrategy::new`) with its fixed node list; `Option`
parameters model the JSON lookups. -/
def GraphStrategy.new (config : StrategyConfig)
    (cfg_min_profit_rate cfg_fee_rate : Option ℚ) : GraphStrategy :=
  { config := config
    edges := []
    nodes := ["USDT", "BTC", "ETH", "BNB", "SOL", "XRP"]
    min_profit_rate := cfg_min_profit_rate.getD 0.002
    fee_rate := cfg_fee_rate.getD 0.001 }

/-- Symbol splitting (`GraphStrategy::parse_pair`): try the quote suffixes
in order and strip the first match (`ends_with` plus `strip_suffix`). -/
def GraphStrategy.parse_pair (symbol : String) : Option (String × String) :=
  (["USDT", "USDC", "BTC", "ETH", "BNB"] : List String).findSome?
    (fun quote =>
      if quote.toList.isSuffixOf symbol.toList then
        some (String.mk (symbol.toList.take
          (symbol.toList.length - quote.toList.length)), quote)
      else none)

/-- Ticker handler (`GraphStrategy::on_ticker`): insert the buy edge
`quote -> base` with weight `-ln(ask*(1-f))` and the sell edge
`base -> quote` with weight `ln(bid*(1-f))`, then run the detector and
emit when `exp(-w) - 1` beats the threshold. -/
noncomputable def GraphStrategy.on_ticker (s : GraphStrategy) (ticker : Ticker)
    (now : ℤ) : GraphStrategy × Option Signal :=
  let s1 :=
    match GraphStrategy.parse_pair ticker.symbol with
    | some bq =>
      let buy_weight := -Real.log ((ticker.ask : ℝ) * (1 - (s.fee_rate : ℝ)))
      let sell_weight := Real.log ((ticker.bid : ℝ) * (1 - (s.fee_rate : ℝ)))
      let edges1 := upsert (upsert s.edges (bq.2, bq.1) buy_weight)
        (bq.1, bq.2) sell_weight
      { s with edges := edges1 }
    | none => s
  let sig :=
    match detect_negative_cycle s1.nodes s1.edges with
    | some pw =>
      let profit_rate := Real.exp (-pw.2) - 1
      if profit_rate > (s1.min_profit_rate : ℝ) then
        some { strategy_type := .Graph
               strategy_id := s1.config.id
               exchange := ticker.exchange
               path := String.intercalate " → " pw.1
               expected_profit := profit_rate * (s1.config.per_trade_limit : ℝ)
               profit_rate := profit_rate
               confidence := min (profit_rate / (s1.min_profit_rate : ℝ)) 1
               timestamp := now }
      else none
    | none => none
  (s1, sig)

/-! ## Specification vocabulary for the Bellman-Ford claim -/

section WalkSpec

variable {α : Type} [LinearOrderedField α]

/-- Total weight of a list of edges. -/
def walkWeight (p : List ((String × String) × α)) : α :=
  (p.map (fun e => e.2)).sum

/-- The edge list `p` is a walk from `u` to `v` whose edges are all drawn
from `edges`. -/
def IsWalk (edges : List ((String × String) × α)) :
    String → String → List ((String × String) × α) → Prop
  | u, v, [] => u = v
  | u, v, e :: p => e ∈ edges ∧ e.1.1 = u ∧ IsWalk edges e.1.2 v p

/-- The weighted directed graph induced by `edges` has no negative cycle:
every nonempty closed walk has nonnegative weight.  (A negative closed
walk always contains a negative simple cycle and conversely, so this is
the usual notion.) -/
def NoNegCycle (edges : List ((String × String) × α)) : Prop :=
  ∀ v p, p ≠ [] → IsWalk edges v v p → 0 ≤ walkWeight p

/-- The edges whose endpoints both appear in the node list; the relaxation
and the detection scan ignore all others. -/
def goodEdges (nodes : List String) (edges : List ((String × String) × α)) :
    List ((String × String) × α) :=
  edges.filter (fun e => decide (e.1.1 ∈ nodes ∧ e.1.2 ∈ nodes))

end WalkSpec

/-- Folds a list of tickers (each with its wall-clock value) through
`PairStrategy::on_ticker`, keeping the state. -/
noncomputable def PairStrategy.run (s : PairStrategy)
    (ts : List (Ticker × ℤ)) : PairStrategy :=
  ts.foldl (fun s p => (s.on_ticker p.1 p.2).1) s

/-! ## Concrete inputs used by the scenario theorems and witnesses -/

/-- A concrete strategy configuration row. -/
def demo_config (t : StrategyType) : StrategyConfig :=
  { id := "demo", strategy_type := t, name := "demo", is_enabled := true,
    priority := 1, capital_percent := 20, per_trade_limit := 100 }

/-- A concrete ticker. -/
def demo_ticker (sym : String) (b a l : ℚ) : Ticker :=
  { exchange := .Binance, symbol := sym, bid := b, ask := a, last := l,
    volume := 0, timestamp := 0 }

/-- Scenario S1: a fresh default-configured triangular strategy (fee
overridden to `0`) fed the three tickers `BTCUSDT ask=50000`,
`ETHBTC ask=0.05`, `ETHUSDT bid=2600`. -/
noncomputable def s1_run : TriangularStrategy × Option Signal :=
  let st0 := TriangularStrategy.new (demo_config .Triangular) none (some 0) none
  let st1 := (st0.on_ticker (demo_ticker "BTCUSDT" 49990 50000 0) 0).1
  let st2 := (st1.on_ticker (demo_ticker "ETHBTC" (1/100) (1/20) 0) 0).1
  st2.on_ticker (demo_ticker "ETHUSDT" 2600 2601 0) 0

/-- Price cache used by the triangular fixture. -/
def demo_prices : String → Option (ℚ × ℚ × ℤ) := fun s =>
  if s = "ETHBTC" then some (1/100, 1/20, 0)
  else if s = "ETHUSDT" then some (2600, 2601, 0)
  else none

/-- Triangular strategy state used by witnesses: one triangle, fee `0`,
threshold `1/1000`, legs 2 and 3 already cached. -/
def tri_demo : TriangularStrategy :=
  { config := demo_config .Triangular
    prices := demo_prices
    triangles := [("BTCUSDT", "ETHBTC", "ETHUSDT")]
    min_profit_rate := 1/1000
    fee_rate := 0 }

/-- The signal `tri_demo` emits on a `BTCUSDT` ticker with ask `50000`. -/
noncomputable def tri_demo_signal : Signal :=
  { strategy_type := .Triangular
    strategy_id := "demo"
    exchange := .Binance
    path := "BTCUSDT → ETHBTC → ETHUSDT"
    expected_profit := ((1/25 : ℚ) : ℝ) * ((100 : ℚ) : ℝ)
    profit_rate := ((1/25 : ℚ) : ℝ)
    confidence := min (((1/25 : ℚ) : ℝ) / ((1/1000 : ℚ) : ℝ)) 1
    timestamp := 0 }

/-- Funding-rate strategy state used by witnesses: default thresholds with
one funding rate installed out of band. -/
def funding_demo : FundingRateStrategy :=
  (FundingRateStrategy.new (demo_config .FundingRate) none none).update_funding_rate
    "BTCUSDT" (1/1000) 0

/-- The signal `funding_demo` emits on any `BTCUSDT` ticker. -/
noncomputable def funding_demo_signal : Signal :=
  { strategy_type := .FundingRate
    strategy_id := "demo"
    exchange := .Binance
    path := "BTCUSDT - 做空永续+买入现货"
    expected_profit := ((219/200 : ℚ) : ℝ) * ((7 : ℚ) : ℝ) / 365 * ((100 : ℚ) : ℝ)
    profit_rate := ((219/200 : ℚ) : ℝ)
    confidence := min (((219/200 : ℚ) : ℝ) / ((1/10 : ℚ) : ℝ)) 1
    timestamp := 0 }

/-- Grid strategy state for scenario S4: band `[100, 200]`, ten grids. -/
def grid_demo : GridStrategy :=
  GridStrategy.new (demo_config .Grid)
    [{ symbol := "BTCUSDT", upper_price := 200, lower_price := 100,
       grid_count := 10 }]

/-- The signal `grid_demo` emits on a `BTCUSDT` ticker with last `141`. -/
noncomputable def grid_demo_signal : Signal :=
  { strategy_type := .Grid
    strategy_id := "demo"
    exchange := .Binance
    path := "BTCUSDT - 买入 @ 141.00"
    expected_profit := ((10/141 : ℚ) : ℝ) * ((100 : ℚ) : ℝ)
    profit_rate := ((10/141 : ℚ) : ℝ)
    confidence := ((0.8 : ℚ) : ℝ)
    timestamp := 0 }

/-- Price histories used by the pair fixture: the window is 2, `BTCUSDT`
has one entry so far and `ETHUSDT` is full. -/
def pair_demo_hist : String → List ℚ := fun s =>
  if s = "BTCUSDT" then [1]
  else if s = "ETHUSDT" then [1, 1]
  else []

/-- Pair strategy state used by witnesses: window 2, threshold `1/2`. -/
def pair_demo : PairStrategy :=
  { PairStrategy.new (demo_config .Pair) (some 2) (some (1/2)) with
      price_history := pair_demo_hist }

/-- The signal `pair_demo` emits on a `BTCUSDT` ticker with last `3`
(z-score exactly `1`). -/
noncomputable def pair_demo_signal : Signal :=
  { strategy_type := .Pair
    strategy_id := "demo"
    exchange := .Binance
    path := "BTCUSDT/ETHUSDT - 做空 BTCUSDT / 做多 ETHUSDT"
    expected_profit := (|(1 : ℝ)| - ((1/2 : ℚ) : ℝ)) * 0.01 * ((100 : ℚ) : ℝ)
    profit_rate := (|(1 : ℝ)| - ((1/2 : ℚ) : ℝ)) * 0.01
    confidence := min (|(1 : ℝ)| / (((1/2 : ℚ) : ℝ) * 2.0)) 1
    timestamp := 0 }

/-- Graph strategy state used by witnesses: a single node with a
negative-weight self-loop of weight `-ln 2` already in the edge map. -/
noncomputable def graph_demo : GraphStrategy :=
  { config := demo_config .Graph
    edges := [(("USDT", "USDT"), -Real.log 2)]
    nodes := ["USDT"]
    min_profit_rate := 1/2
    fee_rate := 1/1000 }

/-- The signal `graph_demo` emits on a ticker whose symbol does not parse
(leaving the edge map unchanged). -/
noncomputable def graph_demo_signal : Signal :=
  { strategy_type := .Graph
    strategy_id := "demo"
    exchange := .Binance
    path := "USDT"
    expected_profit := (Real.exp (-(-Real.log 2)) - 1) * ((100 : ℚ) : ℝ)
    profit_rate := Real.exp (-(-Real.log 2)) - 1
    confidence := min ((Real.exp (-(-Real.log 2)) - 1) / ((1/2 : ℚ) : ℝ)) 1
    timestamp := 0 }

/-- Environment used by the live-gate witness: `ENGINE_EXECUTE_SIGNALS=1`
and no other variable set. -/
def demo_env : Env := fun k =>
  if k = "ENGINE_EXECUTE_SIGNALS" then some "1" else none

/-- Executor used by the live-gate witness: live mode with redis and an
OMS client configured. -/
def demo_executor : OrderExecutor :=
  { simulation_mode := false
    has_redis := true
    oms_client := some { base_url := "http://oms", token := "secret" }
    user_id := some "u1" }

/-! ## Bellman-Ford correctness lemmas -/

section BellmanFordProof

variable {α : Type} [LinearOrderedField α]
variable [DecidableRel ((· < ·) : α → α → Prop)]

theorem relaxEdge_dist_le (nodes : List String) (st : BFState α)
    (e : (String × String) × α) (v : String) :
    (relaxEdge nodes st e).dist v ≤ st.dist v := by
  by_cases h1 : e.1.1 ∈ nodes
  · by_cases h2 : e.1.2 ∈ nodes
    · by_cases h3 : st.dist e.1.1 + (e.2 : WithTop α) < st.dist e.1.2
      · simp only [relaxEdge, if_pos h1, if_pos h2, if_pos h3,
          Function.update_apply]
        split
        · rename_i hv
          subst hv
          exact le_of_lt h3
        · exact le_rfl
      · simp [relaxEdge, h1, h2, h3]
    · simp [relaxEdge, h1, h2]
  · simp [relaxEdge, h1]

theorem relaxPass_dist_le (nodes : List String)
    (edges : List ((String × String) × α)) (st : BFState α) (v : String) :
    (relaxPass nodes edges st).dist v ≤ st.dist v := by
  induction edges generalizing st with
  | nil => exact le_rfl
  | cons e rest ih =>
    calc (relaxPass nodes (e :: rest) st).dist v
        = (relaxPass nodes rest (relaxEdge nodes st e)).dist v := rfl
      _ ≤ (relaxEdge nodes st e).dist v := ih _
      _ ≤ st.dist v := relaxEdge_dist_le nodes st e v

theorem relaxLoop_dist_le (nodes : List String)
    (edges : List ((String × String) × α)) (k : ℕ) (st : BFState α)
    (v : String) : (relaxLoop nodes edges k st).dist v ≤ st.dist v := by
  induction k with
  | zero => exact le_rfl
  | succ k ih =>
    calc (relaxLoop nodes edges (k + 1) st).dist v
        = (relaxPass nodes edges (relaxLoop nodes edges k st)).dist v := rfl
      _ ≤ (relaxLoop nodes edges k st).dist v := relaxPass_dist_le _ _ _ _
      _ ≤ st.dist v := ih

theorem relaxEdge_bound (nodes : List String) (st : BFState α)
    (e : (String × String) × α) (h1 : e.1.1 ∈ nodes) (h2 : e.1.2 ∈ nodes) :
    (relaxEdge nodes st e).dist e.1.2 ≤ st.dist e.1.1 + (e.2 : WithTop α) := by
  by_cases h3 : st.dist e.1.1 + (e.2 : WithTop α) < st.dist e.1.2
  · simp [relaxEdge, h1, h2, h3]
  · simp only [relaxEdge, if_pos h1, if_pos h2, if_neg h3]
    exact le_of_not_lt h3

theorem relaxPass_bound (nodes : List String)
    (edges : List ((String × String) × α)) (e : (String × String) × α)
    (he : e ∈ edges) (h1 : e.1.1 ∈ nodes) (h2 : e.1.2 ∈ nodes)
    (st : BFState α) :
    (relaxPass nodes edges st).dist e.1.2 ≤ st.dist e.1.1 + (e.2 : WithTop α) := by
  induction edges generalizing st with
  | nil => cases he
  | cons f rest ih =>
    rcases List.mem_cons.mp he with hef | her
    · subst hef
      calc (relaxPass nodes (e :: rest) st).dist e.1.2
          = (relaxPass nodes rest (relaxEdge nodes st e)).dist e.1.2 := rfl
        _ ≤ (relaxEdge nodes st e).dist e.1.2 := relaxPass_dist_le _ _ _ _
        _ ≤ st.dist e.1.1 + (e.2 : WithTop α) := relaxEdge_bound nodes st e h1 h2
    · calc (relaxPass nodes (f :: rest) st).dist e.1.2
          = (relaxPass nodes rest (relaxEdge nodes st f)).dist e.1.2 := rfl
        _ ≤ (relaxEdge nodes st f).dist e.1.1 + (e.2 : WithTop α) := ih her _
        _ ≤ st.dist e.1.1 + (e.2 : WithTop α) :=
            add_le_add_right (relaxEdge_dist_le nodes st f e.1.1) _

@[simp]
theorem walkWeight_nil : walkWeight ([] : List ((String × String) × α)) = 0 :=
  rfl

@[simp]
theorem walkWeight_cons (e : (String × String) × α) (p) :
    walkWeight (e :: p) = e.2 + walkWeight p := by
  simp [walkWeight]

theorem walkWeight_append (p q : List ((String × String) × α)) :
    walkWeight (p ++ q) = walkWeight p + walkWeight q := by
  simp [walkWeight]

@[simp]
theorem isWalk_nil (E : List ((String × String) × α)) (u v : String) :
    IsWalk E u v [] ↔ u = v := Iff.rfl

@[simp]
theorem isWalk_cons (E : List ((String × String) × α)) (u v : String) (e p) :
    IsWalk E u v (e :: p) ↔ e ∈ E ∧ e.1.1 = u ∧ IsWalk E e.1.2 v p := Iff.rfl

theorem isWalk_append (E : List ((String × String) × α)) (u v : String)
    (p q : List ((String × String) × α)) :
    IsWalk E u v (p ++ q) ↔ ∃ m, IsWalk E u m p ∧ IsWalk E m v q := by
  induction p generalizing u with
  | nil =>
    simp [IsWalk]
  | cons e p ih =>
    simp only [List.cons_append, isWalk_cons, ih]
    constructor
    · rintro ⟨he, h1, m, hm1, hm2⟩
      exact ⟨m, ⟨he, h1, hm1⟩, hm2⟩
    · rintro ⟨m, ⟨he, h1, hm1⟩, hm2⟩
      exact ⟨he, h1, m, hm1, hm2⟩

theorem isWalk_mem (E : List ((String × String) × α)) (u v : String) (p)
    (h : IsWalk E u v p) : ∀ e ∈ p, e ∈ E := by
  induction p generalizing u with
  | nil => intro e he; cases he
  | cons f p ih =>
    obtain ⟨hf, _, hrest⟩ := h
    intro e he
    rcases List.mem_cons.mp he with rfl | he2
    · exact hf
    · exact ih _ hrest e he2

theorem isWalk_mono (E F : List ((String × String) × α))
    (hEF : ∀ e ∈ E, e ∈ F) (u v : String) (p) (h : IsWalk E u v p) :
    IsWalk F u v p := by
  induction p generalizing u with
  | nil => exact h
  | cons e p ih =>
    obtain ⟨he, h1, hrest⟩ := h
    exact ⟨hEF e he, h1, ih _ hrest⟩

theorem goodEdges_subset (nodes : List String)
    (edges : List ((String × String) × α)) :
    ∀ e ∈ goodEdges nodes edges, e ∈ edges := fun _ he =>
  (List.mem_filter.mp he).1

theorem goodEdges_src (nodes : List String)
    (edges : List ((String × String) × α)) (e : (String × String) × α)
    (he : e ∈ goodEdges nodes edges) : e.1.1 ∈ nodes :=
  (of_decide_eq_true (List.mem_filter.mp he).2).1

theorem goodEdges_dst (nodes : List String)
    (edges : List ((String × String) × α)) (e : (String × String) × α)
    (he : e ∈ goodEdges nodes edges) : e.1.2 ∈ nodes :=
  (of_decide_eq_true (List.mem_filter.mp he).2).2

theorem mem_goodEdges (nodes : List String)
    (edges : List ((String × String) × α)) (e : (String × String) × α)
    (he : e ∈ edges) (h1 : e.1.1 ∈ nodes) (h2 : e.1.2 ∈ nodes) :
    e ∈ goodEdges nodes edges :=
  List.mem_filter.mpr ⟨he, decide_eq_true ⟨h1, h2⟩⟩

theorem relaxPass_eq_goodEdges (nodes : List String)
    (edges : List ((String × String) × α)) (st : BFState α) :
    relaxPass nodes edges st = relaxPass nodes (goodEdges nodes edges) st := by
  induction edges generalizing st with
  | nil => rfl
  | cons e rest ih =>
    by_cases h1 : e.1.1 ∈ nodes
    · by_cases h2 : e.1.2 ∈ nodes
      · have hg : goodEdges nodes (e :: rest) = e :: goodEdges nodes rest := by
          simp [goodEdges, h1, h2]
        rw [hg]
        show relaxPass nodes rest (relaxEdge nodes st e) =
          relaxPass nodes (goodEdges nodes rest) (relaxEdge nodes st e)
        exact ih _
      · have hg : goodEdges nodes (e :: rest) = goodEdges nodes rest := by
          simp [goodEdges, h1, h2]
        have hskip : relaxEdge nodes st e = st := by
          simp [relaxEdge, h1, h2]
        rw [hg, ← ih]
        show relaxPass nodes rest (relaxEdge nodes st e) = relaxPass nodes rest st
        rw [hskip]
    · have hg : goodEdges nodes (e :: rest) = goodEdges nodes rest := by
        simp [goodEdges, h1]
      have hskip : relaxEdge nodes st e = st := by
        simp [relaxEdge, h1]
      rw [hg, ← ih]
      show relaxPass nodes rest (relaxEdge nodes st e) = relaxPass nodes rest st
      rw [hskip]

theorem relaxLoop_eq_goodEdges (nodes : List String)
    (edges : List ((String × String) × α)) (k : ℕ) (st : BFState α) :
    relaxLoop nodes edges k st = relaxLoop nodes (goodEdges nodes edges) k st := by
  induction k with
  | zero => rfl
  | succ k ih =>
    show relaxPass nodes edges (relaxLoop nodes edges k st) =
      relaxPass nodes (goodEdges nodes edges)
        (relaxLoop nodes (goodEdges nodes edges) k st)
    rw [ih, relaxPass_eq_goodEdges]

theorem relaxEdge_reach (nodes : List String)
    (E : List ((String × String) × α)) (s : String) (st : BFState α)
    (e : (String × String) × α) (heE : e ∈ E)
    (h : ∀ v, st.dist v ≠ ⊤ → ∃ p, IsWalk E s v p ∧ st.dist v = ↑(walkWeight p)) :
    ∀ v, (relaxEdge nodes st e).dist v ≠ ⊤ →
      ∃ p, IsWalk E s v p ∧ (relaxEdge nodes st e).dist v = ↑(walkWeight p) := by
  intro v hv
  by_cases h1 : e.1.1 ∈ nodes
  · by_cases h2 : e.1.2 ∈ nodes
    · by_cases h3 : st.dist e.1.1 + (e.2 : WithTop α) < st.dist e.1.2
      · simp only [relaxEdge, if_pos h1, if_pos h2, if_pos h3,
          Function.update_apply] at hv ⊢
        split at hv
        · rename_i hveq
          have hne1 : st.dist e.1.1 ≠ ⊤ := by
            intro htop
            rw [htop, top_add] at h3
            exact not_top_lt h3
          obtain ⟨p, hp, hpd⟩ := h e.1.1 hne1
          refine ⟨p ++ [e], ?_, ?_⟩
          · subst hveq
            exact (isWalk_append E s e.1.2 p [e]).mpr
              ⟨e.1.1, hp, ⟨heE, rfl, rfl⟩⟩
          · rw [if_pos hveq, hpd, walkWeight_append, walkWeight_cons,
              walkWeight_nil, add_zero, WithTop.coe_add]
        · rename_i hvne
          rw [if_neg hvne]
          exact h v (by simpa [Function.update_apply, hvne] using hv)
      · simp only [relaxEdge, if_pos h1, if_pos h2, if_neg h3] at hv ⊢
        exact h v hv
    · simp only [relaxEdge, if_pos h1, if_neg h2] at hv ⊢
      exact h v hv
  · simp only [relaxEdge, if_neg h1] at hv ⊢
    exact h v hv

theorem foldl_relax_reach (nodes : List String)
    (E : List ((String × String) × α)) (s : String)
    (l : List ((String × String) × α)) (hl : ∀ e ∈ l, e ∈ E)
    (st : BFState α)
    (h : ∀ v, st.dist v ≠ ⊤ → ∃ p, IsWalk E s v p ∧ st.dist v = ↑(walkWeight p)) :
    ∀ v, (l.foldl (relaxEdge nodes) st).dist v ≠ ⊤ →
      ∃ p, IsWalk E s v p ∧
        (l.foldl (relaxEdge nodes) st).dist v = ↑(walkWeight p) := by
  induction l generalizing st with
  | nil => exact h
  | cons e rest ih =>
    exact ih (fun f hf => hl f (List.mem_cons_of_mem e hf)) _
      (relaxEdge_reach nodes E s st e (hl e (List.mem_cons_self e rest)) h)

theorem relaxLoop_reach (nodes : List String)
    (E : List ((String × String) × α)) (s : String) (k : ℕ)
    (st : BFState α)
    (h : ∀ v, st.dist v ≠ ⊤ → ∃ p, IsWalk E s v p ∧ st.dist v = ↑(walkWeight p)) :
    ∀ v, (relaxLoop nodes E k st).dist v ≠ ⊤ →
      ∃ p, IsWalk E s v p ∧ (relaxLoop nodes E k st).dist v = ↑(walkWeight p) := by
  induction k generalizing st with
  | zero => exact h
  | succ k ih =>
    exact foldl_relax_reach nodes E s E (fun _ hf => hf) _ (ih st h)

theorem init_reach (E : List ((String × String) × α)) (s : String) :
    ∀ v, (if v = s then (0 : WithTop α) else ⊤) ≠ ⊤ →
      ∃ p, IsWalk E s v p ∧
        (if v = s then (0 : WithTop α) else ⊤) = ↑(walkWeight p) := by
  intro v hv
  by_cases hvs : v = s
  · subst hvs
    exact ⟨[], rfl, by simp⟩
  · simp [hvs] at hv

theorem relaxLoop_ub (nodes : List String)
    (G : List ((String × String) × α)) (s : String) (k : ℕ)
    (hG : ∀ e ∈ G, e.1.1 ∈ nodes ∧ e.1.2 ∈ nodes) :
    ∀ (v : String) (p : List ((String × String) × α)),
      IsWalk G s v p → p.length ≤ k →
      (relaxLoop nodes G k
        { dist := fun w => if w = s then 0 else ⊤
          parent := fun _ => none }).dist v ≤ ↑(walkWeight p) := by
  induction k with
  | zero =>
    intro v p hw hlen
    have hp : p = [] := List.length_eq_zero.mp (Nat.le_zero.mp hlen)
    subst hp
    have hv : s = v := hw
    subst hv
    simp [relaxLoop]
  | succ k ih =>
    intro v p hw hlen
    rcases p.eq_nil_or_concat with rfl | ⟨q, e, rfl⟩
    · have hv : s = v := hw
      subst hv
      calc (relaxLoop nodes G (k + 1)
            { dist := fun w => if w = s then 0 else ⊤
              parent := fun _ => none }).dist s
          ≤ (if s = s then (0 : WithTop α) else ⊤) := relaxLoop_dist_le _ _ _ _ _
        _ = ↑(walkWeight ([] : List ((String × String) × α))) := by simp
    · rw [List.concat_eq_append] at hw hlen ⊢
      obtain ⟨m, hwq, hwe⟩ := (isWalk_append G s v q [e]).mp hw
      obtain ⟨heG, he1, he2⟩ := hwe
      have he2' : e.1.2 = v := he2
      have hqlen : q.length ≤ k := by
        have := hlen
        simp only [List.length_append, List.length_cons, List.length_nil] at this
        omega
      have hub : (relaxLoop nodes G k
          { dist := fun w => if w = s then 0 else ⊤
            parent := fun _ => none }).dist m ≤ ↑(walkWeight q) := ih m q hwq hqlen
      subst he2'
      calc (relaxLoop nodes G (k + 1)
            { dist := fun w => if w = s then 0 else ⊤
              parent := fun _ => none }).dist e.1.2
          = (relaxPass nodes G (relaxLoop nodes G k
              { dist := fun w => if w = s then 0 else ⊤
                parent := fun _ => none })).dist e.1.2 := rfl
        _ ≤ (relaxLoop nodes G k
              { dist := fun w => if w = s then 0 else ⊤
                parent := fun _ => none }).dist e.1.1 + (e.2 : WithTop α) :=
            relaxPass_bound nodes G e heG (hG e heG).1 (hG e heG).2 _
        _ ≤ ↑(walkWeight q) + (e.2 : WithTop α) := by
            rw [he1]
            exact add_le_add_right hub _
        _ = ↑(walkWeight (q ++ [e])) := by
            rw [walkWeight_append, walkWeight_cons, walkWeight_nil, add_zero,
              WithTop.coe_add]

theorem walk_shorten (E : List ((String × String) × α)) (hE : NoNegCycle E) :
    ∀ (n : ℕ) (u v : String) (p : List ((String × String) × α)),
      p.length ≤ n → IsWalk E u v p →
      ∃ q, IsWalk E u v q ∧ walkWeight q ≤ walkWeight p ∧
        (u :: q.map (fun e => e.1.2)).Nodup ∧ ∀ e ∈ q, e ∈ p := by
  intro n
  induction n with
  | zero =>
    intro u v p hlen hw
    have hp : p = [] := List.length_eq_zero.mp (Nat.le_zero.mp hlen)
    subst hp
    exact ⟨[], hw, le_rfl, by simp, by simp⟩
  | succ k ih =>
    intro u v p hlen hw
    by_cases hu : u ∈ p.map (fun e => e.1.2)
    · obtain ⟨e, hep, he2⟩ := List.mem_map.mp hu
      obtain ⟨p₁, p₂, rfl⟩ := List.append_of_mem hep
      have hw' : IsWalk E u v ((p₁ ++ [e]) ++ p₂) := by
        simpa [List.append_assoc] using hw
      obtain ⟨m, hw1, hw2⟩ := (isWalk_append E u v (p₁ ++ [e]) p₂).mp hw'
      obtain ⟨m', hq1, hq2⟩ := (isWalk_append E u m p₁ [e]).mp hw1
      have hm : e.1.2 = m := hq2.2.2
      have hmu : m = u := by rw [← hm, he2]
      have hw1' : IsWalk E u u (p₁ ++ [e]) := hmu ▸ hw1
      have hw2' : IsWalk E u v p₂ := hmu ▸ hw2
      have hcyc : 0 ≤ walkWeight (p₁ ++ [e]) :=
        hE u (p₁ ++ [e]) (by simp) hw1'
      have hlen2 : p₂.length ≤ k := by
        simp only [List.length_append, List.length_cons] at hlen
        omega
      obtain ⟨q, hq, hqwt, hqnd, hqsub⟩ := ih u v p₂ hlen2 hw2'
      refine ⟨q, hq, ?_, hqnd, ?_⟩
      · have : walkWeight (p₁ ++ e :: p₂) =
            walkWeight (p₁ ++ [e]) + walkWeight p₂ := by
          rw [← walkWeight_append, List.append_assoc]
          rfl
        rw [this]
        linarith
      · intro f hf
        have := hqsub f hf
        simp only [List.mem_append, List.mem_cons]
        right
        right
        exact this
    · cases p with
      | nil =>
        exact ⟨[], hw, le_rfl, by simp, by simp⟩
      | cons e p' =>
        obtain ⟨heE, he1, hwrest⟩ := hw
        have hlen' : p'.length ≤ k := by
          simp only [List.length_cons] at hlen
          omega
        obtain ⟨q', hq', hwt', hnd', hsub'⟩ := ih e.1.2 v p' hlen' hwrest
        refine ⟨e :: q', ⟨heE, he1, hq'⟩, ?_, ?_, ?_⟩
        · simp only [walkWeight_cons]
          linarith
        · refine List.nodup_cons.mpr ⟨?_, hnd'⟩
          intro hmem
          apply hu
          simp only [List.map_cons, List.mem_cons] at hmem ⊢
          rcases hmem with h | h
          · exact Or.inl h
          · obtain ⟨f, hfq, hf2⟩ := List.mem_map.mp h
            exact Or.inr (List.mem_map.mpr ⟨f, hsub' f hfq, hf2⟩)
        · intro f hf
          rcases List.mem_cons.mp hf with rfl | hf'
          · exact List.mem_cons_self f p'
          · exact List.mem_cons_of_mem e (hsub' f hf')

theorem nodup_walk_bound (nodes : List String)
    (edges : List ((String × String) × α)) (s v : String) (hs : s ∈ nodes)
    (q : List ((String × String) × α))
    (hq : IsWalk (goodEdges nodes edges) s v q)
    (hnd : (s :: q.map (fun e => e.1.2)).Nodup) :
    q.length + 1 ≤ nodes.length := by
  have hsub : (s :: q.map (fun e => e.1.2)) ⊆ nodes := by
    intro x hx
    rcases List.mem_cons.mp hx with rfl | hx'
    · exact hs
    · obtain ⟨f, hfq, hf2⟩ := List.mem_map.mp hx'
      have hfE := isWalk_mem _ _ _ _ hq f hfq
      exact hf2 ▸ goodEdges_dst nodes edges f hfE
  have hsp := (hnd.subperm hsub).length_le
  simpa using hsp

theorem detect_negative_cycle_cons (s : String) (rest : List String)
    (edges : List ((String × String) × α)) :
    detect_negative_cycle (s :: rest) edges =
      edges.findSome? (fun e =>
        if e.1.1 ∈ (s :: rest) ∧ e.1.2 ∈ (s :: rest) then
          if (relaxLoop (s :: rest) edges (s :: rest).length
                { dist := fun v => if v = s then 0 else ⊤
                  parent := fun _ => none }).dist e.1.1 + (e.2 : WithTop α) <
              (relaxLoop (s :: rest) edges (s :: rest).length
                { dist := fun v => if v = s then 0 else ⊤
                  parent := fun _ => none }).dist e.1.2 then
            some ((buildPath
              (relaxLoop (s :: rest) edges (s :: rest).length
                { dist := fun v => if v = s then 0 else ⊤
                  parent := fun _ => none }).parent
              (s :: rest).length ((s :: rest).length + 2) [e.1.2] e.1.1).reverse,
              e.2)
          else none
        else none) := rfl

end BellmanFordProof

/-! ## Claim theorems -/

/-- C4: for every node list and every edge map whose induced weighted
directed graph contains no negative-weight cycle (every nonempty closed
walk has nonnegative weight), `GraphStrategy::detect_negative_cycle`
reports no negative cycle, i.e. returns `none`. -/
theorem detect_negative_cycle_none_of_acyclic {α : Type}
    [LinearOrderedField α] [DecidableRel ((· < ·) : α → α → Prop)]
    (nodes : List String) (edges : List ((String × String) × α))
    (hnc : NoNegCycle edges) : detect_negative_cycle nodes edges = none := by
  cases nodes with
  | nil => rfl
  | cons s rest =>
    have hncG : NoNegCycle (goodEdges (s :: rest) edges) := by
      intro v p hne hw
      exact hnc v p hne
        (isWalk_mono _ _ (goodEdges_subset (s :: rest) edges) _ _ _ hw)
    rw [detect_negative_cycle_cons]
    refine List.findSome?_eq_none_iff.mpr ?_
    intro e he
    by_cases hg : e.1.1 ∈ (s :: rest) ∧ e.1.2 ∈ (s :: rest)
    · simp only [if_pos hg, ite_eq_right_iff]
      intro hlt
      exfalso
      rw [relaxLoop_eq_goodEdges] at hlt
      set G := goodEdges (s :: rest) edges with hGdef
      set N := (s :: rest).length with hNdef
      set st := relaxLoop (s :: rest) G N
        { dist := fun v => if v = s then 0 else ⊤
          parent := fun _ => none } with hstdef
      have hne : st.dist e.1.1 ≠ ⊤ := by
        intro htop
        rw [htop, top_add] at hlt
        exact not_top_lt hlt
      obtain ⟨p, hp, hpd⟩ :=
        relaxLoop_reach (s :: rest) G s N _ (init_reach G s) e.1.1 hne
      have heG : e ∈ G := mem_goodEdges _ _ _ he hg.1 hg.2
      have hwalk : IsWalk G s e.1.2 (p ++ [e]) :=
        (isWalk_append G s e.1.2 p [e]).mpr ⟨e.1.1, hp, ⟨heG, rfl, rfl⟩⟩
      obtain ⟨q, hq, hqwt, hqnd, _⟩ :=
        walk_shorten G hncG (p ++ [e]).length s e.1.2 (p ++ [e]) le_rfl hwalk
      have hqbound : q.length + 1 ≤ N :=
        nodup_walk_bound (s :: rest) edges s e.1.2
          (List.mem_cons_self s rest) q hq hqnd
      have hub : st.dist e.1.2 ≤ ↑(walkWeight q) :=
        relaxLoop_ub (s :: rest) G s N
          (fun f hf => ⟨goodEdges_src _ _ f hf, goodEdges_dst _ _ f hf⟩)
          e.1.2 q hq (by omega)
      have hwq : walkWeight q ≤ walkWeight p + e.2 := by
        have h := hqwt
        rwa [walkWeight_append, walkWeight_cons, walkWeight_nil, add_zero] at h
      have hchain : st.dist e.1.2 < st.dist e.1.2 := by
        calc st.dist e.1.2 ≤ ↑(walkWeight q) := hub
          _ ≤ ↑(walkWeight p + e.2) := WithTop.coe_le_coe.mpr hwq
          _ = ↑(walkWeight p) + (e.2 : WithTop α) := WithTop.coe_add _ _
          _ = st.dist e.1.1 + (e.2 : WithTop α) := by rw [← hpd]
          _ < st.dist e.1.2 := hlt
      exact lt_irrefl _ hchain
    · simp only [if_neg hg]

/-- Witness for C4: a concrete one-node graph with a single nonnegative
self-loop has no negative cycle, and the detector returns `none` on it. -/
theorem detect_negative_cycle_none_of_acyclic_witness :
    NoNegCycle [((("USDT", "USDT"), (1 : ℚ)))] ∧
      detect_negative_cycle ["USDT"] [((("USDT", "USDT"), (1 : ℚ)))] = none := by
  have hnc : NoNegCycle [((("USDT", "USDT"), (1 : ℚ)))] := by
    intro v p hne hw
    have hall : ∀ x ∈ p.map (fun e => e.2), (0 : ℚ) ≤ x := by
      intro x hx
      obtain ⟨f, hf, hfx⟩ := List.mem_map.mp hx
      have := List.mem_singleton.mp (isWalk_mem _ _ _ _ hw f hf)
      rw [← hfx, this]
      norm_num
    exact List.sum_nonneg hall
  exact ⟨hnc, detect_negative_cycle_none_of_acyclic ["USDT"] _ hnc⟩

/-- C3: for every profit rate (and every finite `f64` profit rate is such
a real number), `calc_risk_score` returns a value in the closed interval
`[10, 1000]`. -/
theorem calc_risk_score_bounds (profit_rate : ℝ) :
    10 ≤ calc_risk_score profit_rate ∧ calc_risk_score profit_rate ≤ 1000 := by
  unfold calc_risk_score
  constructor
  · refine le_min ?_ (by norm_num)
    have h := le_max_right (1 - profit_rate) (0.01 : ℝ)
    nlinarith
  · exact min_le_right _ _

/-- C7: the Binance subscribe frame for `symbols = ["BTC/USDT"]` carries
method `SUBSCRIBE`, id `1`, and params `["btcusdt@ticker"]` (the symbol
lowercased with the slash removed); serializing and reparsing the frame is
the identity on this JSON value. -/
theorem binance_subscribe_reparse :
    (build_subscribe_message .Binance ["BTC/USDT"]).lookupKey "method" =
        some (.str "SUBSCRIBE") ∧
      (build_subscribe_message .Binance ["BTC/USDT"]).lookupKey "id" =
        some (.num 1) ∧
      (build_subscribe_message .Binance ["BTC/USDT"]).lookupKey "params" =
        some (.arr [.str "btcusdt@ticker"]) :=
  ⟨rfl, rfl, rfl⟩

/-- C2 fails on the code: the strategies join paths with the Unicode
arrow `" → "`, but `parse_symbols_from_path` splits on the ASCII two-byte
delimiter `"->"`, which never occurs in such a path.  The parse therefore
returns the whole path as the only token and the decision payload symbol
is the entire path string, not the first symbol of the path. -/
theorem decision_symbol_is_entire_path :
    parse_symbols_from_path "BTCUSDT → ETHBTC → ETHUSDT" =
        ["BTCUSDT → ETHBTC → ETHUSDT"] ∧
      (OrderExecutor.build_decision_payload
        { strategy_type := .Triangular
          strategy_id := "demo"
          exchange := .Binance
          path := "BTCUSDT → ETHBTC → ETHUSDT"
          expected_profit := 0
          profit_rate := 0
          confidence := 0
          timestamp := 0 }).symbol = "BTCUSDT → ETHBTC → ETHUSDT" ∧
      "BTCUSDT → ETHBTC → ETHUSDT" ≠ "BTCUSDT" := by
  refine ⟨by decide, ?_, by decide⟩
  rfl

/-- Evaluation: `tri_demo` emits `tri_demo_signal` on the S1 `BTCUSDT`
ticker (profit rate `1/25`). -/
theorem tri_demo_emits :
    (tri_demo.on_ticker (demo_ticker "BTCUSDT" 49990 50000 0) 0).2 =
      some tri_demo_signal := by
  have hcp : (({ tri_demo with prices := Function.update tri_demo.prices "BTCUSDT" (some (49990, 50000, 0)) } : TriangularStrategy).calculate_profit "BTCUSDT" "ETHBTC" "ETHUSDT") = some (1/25, 26/25) := by
    simp [TriangularStrategy.calculate_profit, tri_demo, demo_prices,
      Function.update_apply]
    norm_num
  simp only [TriangularStrategy.on_ticker, demo_ticker, List.findSome?]
  rw [hcp]
  norm_num [tri_demo, demo_config, tri_demo_signal]
  rfl

/-- Evaluation: `funding_demo` emits `funding_demo_signal` on a `BTCUSDT`
ticker (apr `219/200`). -/
theorem funding_demo_emits :
    (funding_demo.on_ticker (demo_ticker "BTCUSDT" 1 1 1) 0).2 =
      some funding_demo_signal := by
  have hfr : funding_demo.funding_rates "BTCUSDT" = some (1/1000, 0) := by
    simp [funding_demo, FundingRateStrategy.update_funding_rate,
      FundingRateStrategy.new, Function.update_apply]
  have hapr : (({ funding_demo with spot_prices := Function.update funding_demo.spot_prices "BTCUSDT" (some 1) } : FundingRateStrategy).calculate_apr "BTCUSDT") = some (219/200) := by
    simp [FundingRateStrategy.calculate_apr, hfr]
    rw [abs_of_pos (by norm_num : (0:ℚ) < 1000⁻¹)]
    norm_num
  simp only [FundingRateStrategy.on_ticker, demo_ticker]
  rw [hapr]
  norm_num [funding_demo, FundingRateStrategy.update_funding_rate,
    FundingRateStrategy.new, Function.update_apply, funding_demo_signal,
    demo_config]
  rfl

/-- Evaluation: `grid_demo` emits `grid_demo_signal` on a `BTCUSDT` ticker
with last `141` (grid 4 versus grid 5). -/
theorem grid_demo_emits :
    (grid_demo.on_ticker (demo_ticker "BTCUSDT" 141 141 141) 0).2 =
      some grid_demo_signal := by
  have hg : grid_demo.grids "BTCUSDT" =
      some { upper_price := 200, lower_price := 100, grid_count := 10,
             grid_size := 10, last_trigger := 150 } := by
    simp [grid_demo, GridStrategy.new]
    norm_num
  simp only [GridStrategy.on_ticker, hg, demo_ticker]
  norm_num [fmt2, grid_demo, GridStrategy.new, demo_config, grid_demo_signal]
  rfl

/-- Evaluation: the one-node self-loop graph with a negative weight trips
the detector, which reports the witness edge. -/
theorem detect_selfloop {α : Type} [LinearOrderedField α]
    [DecidableRel ((· < ·) : α → α → Prop)] (w : α) (hw : w < 0) :
    detect_negative_cycle ["USDT"] [(("USDT", "USDT"), w)] =
      some (["USDT"], w) := by
  have hcA : (w : WithTop α) < 0 := by
    rw [← WithTop.coe_zero, WithTop.coe_lt_coe]
    exact hw
  have hcB : (w : WithTop α) + (w : WithTop α) < (w : WithTop α) := by
    rw [← WithTop.coe_add, WithTop.coe_lt_coe]
    linarith
  have hc1 : (0 : WithTop α) + (w : WithTop α) < (0 : WithTop α) := by
    rw [zero_add]
    exact hcA
  have hc2 : ((0 : WithTop α) + (w : WithTop α)) + (w : WithTop α) <
      (0 : WithTop α) + (w : WithTop α) := by
    rw [zero_add]
    exact hcB
  simp [detect_negative_cycle_cons, relaxLoop, relaxPass, relaxEdge,
    buildPath, List.findSome?, hcA, hcB, hc1, hc2, Function.update_apply]

/-- Evaluation: `graph_demo` emits `graph_demo_signal` on a ticker whose
symbol does not parse (profit rate `exp(ln 2) - 1 = 1`). -/
theorem graph_demo_emits :
    (graph_demo.on_ticker (demo_ticker "ZZZ" 1 1 1) 0).2 =
      some graph_demo_signal := by
  have hparse : GraphStrategy.parse_pair "ZZZ" = none := by decide
  have hw : (-Real.log 2 : ℝ) < 0 :=
    neg_lt_zero.mpr (Real.log_pos (by norm_num))
  have hdet := detect_selfloop (-Real.log 2) hw
  have hgt : Real.exp (-(-Real.log 2)) - 1 > ((1/2 : ℚ) : ℝ) := by
    rw [neg_neg, Real.exp_log (by norm_num : (0:ℝ) < 2)]
    push_cast
    norm_num
  simp only [GraphStrategy.on_ticker, demo_ticker, hparse, graph_demo]
  rw [hdet]
  simp only [demo_config]
  rw [if_pos hgt]
  rfl

/-- Evaluation: `pair_demo` emits `pair_demo_signal` on a `BTCUSDT` ticker
with last `3` (z-score `1` against threshold `1/2`). -/
theorem pair_demo_emits :
    (pair_demo.on_ticker (demo_ticker "BTCUSDT" 3 3 3) 0).2 =
      some pair_demo_signal := by
  have hz : (PairStrategy.calculate_zscore { config := pair_demo.config, pairs := [("BTCUSDT", "ETHUSDT"), ("SOLUSDT", "AVAXUSDT"), ("BNBUSDT", "MATICUSDT")], price_history := Function.update pair_demo.price_history "BTCUSDT" [1, 3], window_size := 2, zscore_threshold := pair_demo.zscore_threshold } "BTCUSDT" "ETHUSDT") = some 1 := by
    simp [PairStrategy.calculate_zscore, pair_demo, pair_demo_hist,
      PairStrategy.new, Function.update_apply]
    norm_num
  have hh : pair_demo.price_history "BTCUSDT" = [1] := by
    simp [pair_demo, pair_demo_hist]
  have hwin : pair_demo.window_size = 2 := by
    simp [pair_demo, PairStrategy.new]
  have hpairs : pair_demo.pairs =
      [("BTCUSDT", "ETHUSDT"), ("SOLUSDT", "AVAXUSDT"), ("BNBUSDT", "MATICUSDT")] := by
    simp [pair_demo, PairStrategy.new]
  have habs : ((pair_demo.zscore_threshold : ℚ) : ℝ) < |(1 : ℝ)| := by
    simp [pair_demo, PairStrategy.new]
    norm_num
  simp only [PairStrategy.on_ticker, demo_ticker, hh, hwin, hpairs,
    List.cons_append, List.nil_append, List.length_cons, List.length_nil,
    Nat.reduceAdd, gt_iff_lt, Nat.lt_irrefl, if_false, List.findSome?]
  simp only [hz]
  rw [if_pos habs]
  norm_num [pair_demo, PairStrategy.new, demo_config, pair_demo_signal]
  rfl


/-- Helper: a successful `findSome?` comes from some list element. -/
theorem exists_of_findSome?_eq_some {σ β : Type} (f : σ → Option β)
    (l : List σ) (b : β) (h : l.findSome? f = some b) :
    ∃ a ∈ l, f a = some b := by
  obtain ⟨l₁, a, l₂, rfl, ha, -⟩ := List.findSome?_eq_some_iff.mp h
  exact ⟨a, by simp, ha⟩

theorem tri_signal_inv (s : TriangularStrategy) (t : Ticker) (now : ℤ)
    (sig : Signal) (h : (s.on_ticker t now).2 = some sig) :
    ∃ pr : ℚ, s.min_profit_rate < pr ∧
      sig.expected_profit = (pr : ℝ) * (s.config.per_trade_limit : ℝ) ∧
      sig.profit_rate = (pr : ℝ) ∧
      sig.confidence = min ((pr : ℝ) / (s.min_profit_rate : ℝ)) 1 := by
  simp only [TriangularStrategy.on_ticker] at h
  obtain ⟨a, ha, hfa⟩ := exists_of_findSome?_eq_some _ _ _ h
  split at hfa
  · rename_i pr fin heq
    split at hfa
    · rename_i hgt
      rw [Option.some.injEq] at hfa
      subst hfa
      exact ⟨pr, hgt, rfl, rfl, rfl⟩
    · simp at hfa
  · simp at hfa

theorem graph_signal_inv (s : GraphStrategy) (t : Ticker) (now : ℤ)
    (sig : Signal) (h : (s.on_ticker t now).2 = some sig) :
    ∃ pr : ℝ, (s.min_profit_rate : ℝ) < pr ∧
      sig.expected_profit = pr * (s.config.per_trade_limit : ℝ) ∧
      sig.profit_rate = pr ∧
      sig.confidence = min (pr / (s.min_profit_rate : ℝ)) 1 := by
  simp only [GraphStrategy.on_ticker] at h
  rcases hp : GraphStrategy.parse_pair t.symbol with _ | bq <;>
    simp only [hp] at h <;>
    split at h <;>
    simp at h <;>
    obtain ⟨hgt, hl⟩ := h <;>
    subst hl <;>
    exact ⟨_, hgt, rfl, rfl, rfl⟩

theorem grid_signal_inv (s : GridStrategy) (t : Ticker) (now : ℤ)
    (sig : Signal) (h : (s.on_ticker t now).2 = some sig) :
    ∃ pr : ℚ,
      sig.expected_profit = (pr : ℝ) * (s.config.per_trade_limit : ℝ) ∧
      sig.profit_rate = (pr : ℝ) := by
  simp only [GridStrategy.on_ticker] at h
  split at h
  · simp at h
  · rename_i grid hg
    split at h
    · simp at h
    · split at h
      · rw [Prod.snd, Option.some.injEq] at h
        subst h
        exact ⟨grid.grid_size / t.last, rfl, rfl⟩
      · simp at h

theorem funding_signal_inv (s : FundingRateStrategy) (t : Ticker) (now : ℤ)
    (sig : Signal) (h : (s.on_ticker t now).2 = some sig) :
    ∃ apr : ℚ, s.min_apr < apr ∧
      sig.expected_profit =
        (apr : ℝ) * (s.holding_days : ℝ) / 365 * (s.config.per_trade_limit : ℝ) ∧
      sig.profit_rate = (apr : ℝ) ∧
      sig.confidence = min ((apr : ℝ) / (s.min_apr : ℝ)) 1 := by
  simp only [FundingRateStrategy.on_ticker] at h
  split at h
  · rename_i apr heq
    split at h
    · rename_i hgt
      split at h
      · rename_i rate next heq2
        rw [Option.some.injEq] at h
        subst h
        exact ⟨apr, hgt, rfl, rfl, rfl⟩
      · simp at h
    · simp at h
  · simp at h

theorem pair_signal_inv (s : PairStrategy) (t : Ticker) (now : ℤ)
    (sig : Signal) (h : (s.on_ticker t now).2 = some sig) :
    ∃ z : ℝ, (s.zscore_threshold : ℝ) < |z| ∧
      sig.expected_profit =
        (|z| - (s.zscore_threshold : ℝ)) * 0.01 * (s.config.per_trade_limit : ℝ) ∧
      sig.profit_rate = (|z| - (s.zscore_threshold : ℝ)) * 0.01 ∧
      sig.confidence = min (|z| / ((s.zscore_threshold : ℝ) * 2.0)) 1 := by
  simp only [PairStrategy.on_ticker] at h
  obtain ⟨a, ha, hfa⟩ := exists_of_findSome?_eq_some _ _ _ h
  split at hfa
  · split at hfa
    · rename_i z heq
      split at hfa
      · rename_i hgt
        rw [Option.some.injEq] at hfa
        subst hfa
        exact ⟨z, hgt, rfl, rfl, rfl⟩
      · simp at hfa
    · simp at hfa
  · simp at hfa

/-- C1 (amended): every signal emitted by the triangular, graph, grid and
pair strategies has `expected_profit = profit_rate * per_trade_limit`
exactly (the f64 computation agrees to within 1 ULP); the funding-rate
strategy instead emits
`expected_profit = profit_rate * holding_days / 365 * per_trade_limit`. -/
theorem signal_expected_profit_invariant :
    (∀ (s : TriangularStrategy) (t : Ticker) (now : ℤ) (sig : Signal),
        (s.on_ticker t now).2 = some sig →
        sig.expected_profit = sig.profit_rate * (s.config.per_trade_limit : ℝ)) ∧
    (∀ (s : GraphStrategy) (t : Ticker) (now : ℤ) (sig : Signal),
        (s.on_ticker t now).2 = some sig →
        sig.expected_profit = sig.profit_rate * (s.config.per_trade_limit : ℝ)) ∧
    (∀ (s : GridStrategy) (t : Ticker) (now : ℤ) (sig : Signal),
        (s.on_ticker t now).2 = some sig →
        sig.expected_profit = sig.profit_rate * (s.config.per_trade_limit : ℝ)) ∧
    (∀ (s : PairStrategy) (t : Ticker) (now : ℤ) (sig : Signal),
        (s.on_ticker t now).2 = some sig →
        sig.expected_profit = sig.profit_rate * (s.config.per_trade_limit : ℝ)) ∧
    (∀ (s : FundingRateStrategy) (t : Ticker) (now : ℤ) (sig : Signal),
        (s.on_ticker t now).2 = some sig →
        sig.expected_profit =
          sig.profit_rate * (s.holding_days : ℝ) / 365 *
            (s.config.per_trade_limit : ℝ)) := by
  refine ⟨?_, ?_, ?_, ?_, ?_⟩
  · intro s t now sig h
    obtain ⟨pr, -, he, hr, -⟩ := tri_signal_inv s t now sig h
    rw [he, hr]
  · intro s t now sig h
    obtain ⟨pr, -, he, hr, -⟩ := graph_signal_inv s t now sig h
    rw [he, hr]
  · intro s t now sig h
    obtain ⟨pr, he, hr⟩ := grid_signal_inv s t now sig h
    rw [he, hr]
  · intro s t now sig h
    obtain ⟨z, -, he, hr, -⟩ := pair_signal_inv s t now sig h
    rw [he, hr]
  · intro s t now sig h
    obtain ⟨apr, -, he, hr, -⟩ := funding_signal_inv s t now sig h
    rw [he, hr]

/-- C1 counterexample: the funding-rate fixture emits a signal whose
`expected_profit` (2.1) differs from `profit_rate * per_trade_limit`
(109.5), refuting the claim for `FundingRateStrategy::on_ticker`. -/
theorem funding_expected_profit_counterexample :
    (funding_demo.on_ticker (demo_ticker "BTCUSDT" 1 1 1) 0).2 =
        some funding_demo_signal ∧
      funding_demo.config.per_trade_limit = 100 ∧
      funding_demo_signal.expected_profit ≠
        funding_demo_signal.profit_rate * ((100 : ℚ) : ℝ) := by
  refine ⟨funding_demo_emits, by simp [funding_demo, FundingRateStrategy.new, FundingRateStrategy.update_funding_rate, demo_config], ?_⟩
  simp only [funding_demo_signal]
  push_cast
  norm_num

/-- Witness for C1: concrete emissions of all five strategies, with the
invariant instantiated on each. -/
theorem signal_expected_profit_invariant_witness :
    ((tri_demo.on_ticker (demo_ticker "BTCUSDT" 49990 50000 0) 0).2 =
        some tri_demo_signal ∧
      tri_demo_signal.expected_profit =
        tri_demo_signal.profit_rate * (tri_demo.config.per_trade_limit : ℝ)) ∧
    ((graph_demo.on_ticker (demo_ticker "ZZZ" 1 1 1) 0).2 =
        some graph_demo_signal ∧
      graph_demo_signal.expected_profit =
        graph_demo_signal.profit_rate * (graph_demo.config.per_trade_limit : ℝ)) ∧
    ((grid_demo.on_ticker (demo_ticker "BTCUSDT" 141 141 141) 0).2 =
        some grid_demo_signal ∧
      grid_demo_signal.expected_profit =
        grid_demo_signal.profit_rate * (grid_demo.config.per_trade_limit : ℝ)) ∧
    ((pair_demo.on_ticker (demo_ticker "BTCUSDT" 3 3 3) 0).2 =
        some pair_demo_signal ∧
      pair_demo_signal.expected_profit =
        pair_demo_signal.profit_rate * (pair_demo.config.per_trade_limit : ℝ)) ∧
    ((funding_demo.on_ticker (demo_ticker "BTCUSDT" 1 1 1) 0).2 =
        some funding_demo_signal ∧
      funding_demo_signal.expected_profit =
        funding_demo_signal.profit_rate * (funding_demo.holding_days : ℝ) / 365 *
          (funding_demo.config.per_trade_limit : ℝ)) :=
  ⟨⟨tri_demo_emits,
      signal_expected_profit_invariant.1 _ _ _ _ tri_demo_emits⟩,
    ⟨graph_demo_emits,
      signal_expected_profit_invariant.2.1 _ _ _ _ graph_demo_emits⟩,
    ⟨grid_demo_emits,
      signal_expected_profit_invariant.2.2.1 _ _ _ _ grid_demo_emits⟩,
    ⟨pair_demo_emits,
      signal_expected_profit_invariant.2.2.2.1 _ _ _ _ pair_demo_emits⟩,
    ⟨funding_demo_emits,
      signal_expected_profit_invariant.2.2.2.2 _ _ _ _ funding_demo_emits⟩⟩

/-- C10: under a positive configured `min_profit_rate`, every signal the
triangular or graph strategy emits has confidence exactly 1, because
emission requires `profit_rate > min_profit_rate`, so
`min(profit_rate / min_profit_rate, 1)` is 1. -/
theorem emitted_confidence_eq_one :
    (∀ (s : TriangularStrategy) (t : Ticker) (now : ℤ) (sig : Signal),
        0 < s.min_profit_rate → (s.on_ticker t now).2 = some sig →
        sig.confidence = 1) ∧
    (∀ (s : GraphStrategy) (t : Ticker) (now : ℤ) (sig : Signal),
        0 < s.min_profit_rate → (s.on_ticker t now).2 = some sig →
        sig.confidence = 1) := by
  constructor
  · intro s t now sig hm h
    obtain ⟨pr, hgt, -, -, hc⟩ := tri_signal_inv s t now sig h
    rw [hc]
    have hm' : (0 : ℝ) < (s.min_profit_rate : ℝ) := by exact_mod_cast hm
    have hgt' : (s.min_profit_rate : ℝ) < (pr : ℝ) := by exact_mod_cast hgt
    exact min_eq_right ((one_le_div hm').mpr hgt'.le)
  · intro s t now sig hm h
    obtain ⟨pr, hgt, -, -, hc⟩ := graph_signal_inv s t now sig h
    rw [hc]
    have hm' : (0 : ℝ) < (s.min_profit_rate : ℝ) := by exact_mod_cast hm
    exact min_eq_right ((one_le_div hm').mpr hgt.le)

/-- Witness for C10: concrete triangular and graph emissions with
positive thresholds and confidence 1. -/
theorem emitted_confidence_eq_one_witness :
    (0 < tri_demo.min_profit_rate ∧
      (tri_demo.on_ticker (demo_ticker "BTCUSDT" 49990 50000 0) 0).2 =
        some tri_demo_signal ∧
      tri_demo_signal.confidence = 1) ∧
    (0 < graph_demo.min_profit_rate ∧
      (graph_demo.on_ticker (demo_ticker "ZZZ" 1 1 1) 0).2 =
        some graph_demo_signal ∧
      graph_demo_signal.confidence = 1) := by
  have hm1 : 0 < tri_demo.min_profit_rate := by norm_num [tri_demo]
  have hm2 : 0 < graph_demo.min_profit_rate := by norm_num [graph_demo]
  exact ⟨⟨hm1, tri_demo_emits,
      emitted_confidence_eq_one.1 _ _ _ _ hm1 tri_demo_emits⟩,
    ⟨hm2, graph_demo_emits,
      emitted_confidence_eq_one.2 _ _ _ _ hm2 graph_demo_emits⟩⟩

set_option maxHeartbeats 2000000 in
/-- C5 (scenario S1): with fee 0 and cached prices `BTCUSDT ask=50000`,
`ETHBTC ask=0.05`, `ETHUSDT bid=2600`, `calculate_profit` on the triangle
returns profit rate exactly `1/25 = 0.04` and final amount `26/25 = 1.04`,
which beats the default `min_profit_rate` of `0.001`, so `on_ticker`
emits a signal with that profit rate. -/
theorem triangular_scenario_s1 :
    s1_run.1.calculate_profit "BTCUSDT" "ETHBTC" "ETHUSDT" = some (1/25, 26/25) ∧
    s1_run.2.map Signal.profit_rate = some ((1/25 : ℚ) : ℝ) ∧
    (TriangularStrategy.new (demo_config .Triangular) none (some 0)
      none).min_profit_rate = 1/1000 ∧
    ((1/1000 : ℚ) < 1/25) := by
  have ne1 : ("BTCUSDT" : String) ≠ "ETHUSDT" := by decide
  have ne2 : ("BTCUSDT" : String) ≠ "ETHBTC" := by decide
  have ne3 : ("ETHBTC" : String) ≠ "ETHUSDT" := by decide
  have ne4 : ("ETHUSDT" : String) ≠ "BTCUSDT" := by decide
  have ne5 : ("ETHBTC" : String) ≠ "BTCUSDT" := by decide
  have ne6 : ("ETHUSDT" : String) ≠ "ETHBTC" := by decide
  refine ⟨?_, ?_, by norm_num [TriangularStrategy.new], by norm_num⟩
  · norm_num [s1_run, TriangularStrategy.on_ticker,
      TriangularStrategy.calculate_profit, TriangularStrategy.new, demo_config,
      demo_ticker, fallback_triangles, Function.update_apply, List.findSome?,
      ne1, ne2, ne3, ne4, ne5, ne6]
  · norm_num [s1_run, TriangularStrategy.on_ticker,
      TriangularStrategy.calculate_profit, TriangularStrategy.new, demo_config,
      demo_ticker, fallback_triangles, Function.update_apply, List.findSome?,
      ne1, ne2, ne3, ne4, ne5, ne6]

/-- C8: with lower 100, upper 200, ten grids (size 10, initial trigger
150), a last price of 141 crosses from grid 5 into grid 4: the strategy
emits a buy signal (direction 买入 in the path) with profit rate `10/141`
and moves `last_trigger` to 141. -/
theorem grid_scenario_s4 :
    grid_demo.grids "BTCUSDT" =
        some { upper_price := 200, lower_price := 100, grid_count := 10,
               grid_size := 10, last_trigger := 150 } ∧
      (grid_demo.on_ticker (demo_ticker "BTCUSDT" 141 141 141) 0).2 =
        some grid_demo_signal ∧
      grid_demo_signal.path = "BTCUSDT - 买入 @ 141.00" ∧
      grid_demo_signal.profit_rate = ((10/141 : ℚ) : ℝ) ∧
      (grid_demo.on_ticker (demo_ticker "BTCUSDT" 141 141 141) 0).1.grids
          "BTCUSDT" =
        some { upper_price := 200, lower_price := 100, grid_count := 10,
               grid_size := 10, last_trigger := 141 } := by
  have hg : grid_demo.grids "BTCUSDT" =
      some { upper_price := 200, lower_price := 100, grid_count := 10,
             grid_size := 10, last_trigger := 150 } := by
    simp [grid_demo, GridStrategy.new]
    norm_num
  refine ⟨hg, grid_demo_emits, rfl, rfl, ?_⟩
  simp only [GridStrategy.on_ticker, hg, demo_ticker]
  norm_num [Function.update_apply]

/-- C6: when simulation mode is off and the environment gate fails
(`ENGINE_EXECUTE_SIGNALS` not one of 1/true/True, or `ENGINE_LIVE_CONFIRM`
not exactly CONFIRM_LIVE), `OrderExecutor::execute` returns an error and
performs no side effects: no signal publish, no decision publish, no OMS
call. -/
theorem execute_rejects_without_live_gate (ex : OrderExecutor) (env : Env)
    (oms_ok : Bool) (signal : Signal)
    (hsim : ex.simulation_mode = false)
    (hgate : ¬ (env "ENGINE_EXECUTE_SIGNALS").getD "" ∈
        (["1", "true", "True"] : List String) ∨
      (env "ENGINE_LIVE_CONFIRM").getD "" ≠ "CONFIRM_LIVE") :
    (ex.execute env oms_ok signal).1 = [] ∧
      ∃ msg, (ex.execute env oms_ok signal).2 = Except.error msg := by
  have hle : OrderExecutor.live_enabled env = false := by
    unfold OrderExecutor.live_enabled
    rcases hgate with h | h
    · cases henv : env "ENGINE_EXECUTE_SIGNALS" with
      | none => simp [henv]
      | some v =>
        rw [henv] at h
        simp only [Option.getD_some, List.mem_cons, List.mem_singleton,
          List.not_mem_nil, or_false] at h
        push_neg at h
        have b1 : (v == "1") = false := beq_eq_false_iff_ne.mpr h.1
        have b2 : (v == "true") = false := beq_eq_false_iff_ne.mpr h.2.1
        have b3 : (v == "True") = false := beq_eq_false_iff_ne.mpr h.2.2
        simp [henv, b1, b2, b3]
    · have b4 : (((env "ENGINE_LIVE_CONFIRM").getD "") == "CONFIRM_LIVE") =
          false := beq_eq_false_iff_ne.mpr h
      simp [b4]
  constructor
  · simp [OrderExecutor.execute, hsim, hle]
  · exact ⟨"live execution blocked: require ENGINE_EXECUTE_SIGNALS=1 and ENGINE_LIVE_CONFIRM=CONFIRM_LIVE",
      by simp [OrderExecutor.execute, hsim, hle]⟩

/-- Witness for C6: a live-mode executor with the confirmation variable
unset is rejected with no effects. -/
theorem execute_rejects_without_live_gate_witness :
    demo_executor.simulation_mode = false ∧
      (demo_env "ENGINE_LIVE_CONFIRM").getD "" ≠ "CONFIRM_LIVE" ∧
      (demo_executor.execute demo_env true tri_demo_signal).1 = [] ∧
      ∃ msg, (demo_executor.execute demo_env true tri_demo_signal).2 =
        Except.error msg := by
  have hconf : (demo_env "ENGINE_LIVE_CONFIRM").getD "" ≠ "CONFIRM_LIVE" := by
    decide
  have h := execute_rejects_without_live_gate demo_executor demo_env true
    tri_demo_signal rfl (Or.inr hconf)
  exact ⟨rfl, hconf, h.1, h.2⟩

/-- Helper: the pair strategy history update is exactly an append
followed by dropping the oldest entry when over the window, and the
window size is unchanged. -/
theorem pair_update_shape (s : PairStrategy) (t : Ticker) (now : ℤ) :
    ((s.on_ticker t now).1).price_history =
      Function.update s.price_history t.symbol
        (if (s.price_history t.symbol ++ [t.last]).length > s.window_size
         then (s.price_history t.symbol ++ [t.last]).drop 1
         else s.price_history t.symbol ++ [t.last]) ∧
    ((s.on_ticker t now).1).window_size = s.window_size :=
  ⟨rfl, rfl⟩

/-- Helper: one `on_ticker` step preserves the history length bound. -/
theorem pair_history_bounded_step (s : PairStrategy) (t : Ticker) (now : ℤ)
    (hb : ∀ sym, (s.price_history sym).length ≤ s.window_size) :
    ∀ sym, (((s.on_ticker t now).1).price_history sym).length ≤
      s.window_size := by
  intro sym
  rw [(pair_update_shape s t now).1, Function.update_apply]
  split
  · split
    · rename_i hgt
      simp only [List.length_drop, List.length_append, List.length_cons,
        List.length_nil]
      have := hb t.symbol
      omega
    · rename_i hle
      simp only [List.length_append, List.length_cons, List.length_nil,
        gt_iff_lt, not_lt] at hle ⊢
      exact hle
  · exact hb sym

/-- C9: pair-strategy histories stay capped at `window_size` after any
sequence of `on_ticker` calls from a fresh strategy, and each step appends
the new price and evicts exactly the oldest entry (`drop 1`) once the cap
is exceeded. -/
theorem pair_history_window_fifo :
    (∀ (s : PairStrategy) (t : Ticker) (now : ℤ),
        (∀ sym, (s.price_history sym).length ≤ s.window_size) →
        ∀ sym, (((s.on_ticker t now).1).price_history sym).length ≤
          s.window_size) ∧
    (∀ (s : PairStrategy) (t : Ticker) (now : ℤ),
        ((s.on_ticker t now).1).price_history t.symbol =
          (if (s.price_history t.symbol ++ [t.last]).length > s.window_size
           then (s.price_history t.symbol ++ [t.last]).drop 1
           else s.price_history t.symbol ++ [t.last])) ∧
    (∀ (cfg : StrategyConfig) (w : Option ℕ) (z : Option ℚ)
        (ts : List (Ticker × ℤ)) (sym : String),
        (((PairStrategy.new cfg w z).run ts).price_history sym).length ≤
          (PairStrategy.new cfg w z).window_size) := by
  refine ⟨pair_history_bounded_step, ?_, ?_⟩
  · intro s t now
    rw [(pair_update_shape s t now).1, Function.update_same]
  · intro cfg w z ts sym
    have key : ∀ (ts : List (Ticker × ℤ)) (s : PairStrategy),
        (∀ sym, (s.price_history sym).length ≤ s.window_size) →
        ∀ sym, ((s.run ts).price_history sym).length ≤ s.window_size := by
      intro ts
      induction ts with
      | nil => intro s hb sym; exact hb sym
      | cons p rest ih =>
        intro s hb sym
        have hwin := (pair_update_shape s p.1 p.2).2
        have hstep := pair_history_bounded_step s p.1 p.2 hb
        have hrec := ih ((s.on_ticker p.1 p.2).1)
          (fun sym2 => by rw [hwin]; exact hstep sym2) sym
        rw [hwin] at hrec
        exact hrec
    have hb0 : ∀ sym2, ((PairStrategy.new cfg w z).price_history
        sym2).length ≤ (PairStrategy.new cfg w z).window_size := by
      intro sym2
      simp [PairStrategy.new]
    exact key ts _ hb0 sym

/-- Witness for C9: the empty-history fresh strategy satisfies the bound
and keeps it after a concrete ticker. -/
theorem pair_history_window_fifo_witness :
    (∀ sym, (((PairStrategy.new (demo_config .Pair) none
        none).price_history sym)).length ≤
      (PairStrategy.new (demo_config .Pair) none none).window_size) ∧
    (∀ sym, ((((PairStrategy.new (demo_config .Pair) none none).on_ticker
        (demo_ticker "BTCUSDT" 3 3 3) 0).1).price_history sym).length ≤
      (PairStrategy.new (demo_config .Pair) none none).window_size) := by
  have hb : ∀ sym, (((PairStrategy.new (demo_config .Pair) none
      none).price_history sym)).length ≤
      (PairStrategy.new (demo_config .Pair) none none).window_size := by
    intro sym
    simp [PairStrategy.new]
  exact ⟨hb, pair_history_window_fifo.1 _ _ 0 hb⟩

end Inarbit
